import Mathlib

/-!
Verification of the odsluchane-to-spotify synchronization engine.

The TypeScript sources are shallowly embedded below:
* `src/common/string.ts` — `normalize`, `buildSongKey`;
* `src/cli/utils.ts` — `buildWindows`, `normalizePlaylistId`;
* `src/common/fetch.ts` — `fetchWithRetry` / `getRetryAfterMilliseconds`;
* `src/odsluchane/utils.ts` — the Warsaw-timezone window predicates;
* `src/cli/index.ts` — `runSyncCommand`'s window loop, `chooseBestTrack`,
  `findTrackForSong`, `markWindowProcessed`, `isWindowAlreadyProcessed`.

Strings are modelled as `List Char` pipelines wrapped into `String`.
JavaScript platform functions (`String.prototype.toLowerCase`, Unicode NFKD
decomposition) are modelled by explicit tables covering the character
repertoire relevant here (ASCII plus common precomposed Latin letters);
regular-expression replacement is modelled by direct scanning functions whose
behaviour matches the JS regex engine on the construct actually used
(leftmost match, lazy dot, word boundaries, `$` at end of input; the special
case of `$` before a final line terminator is not modelled — all inputs that
appear in the development are single-line).
-/

namespace OdsluchaneSync

/-! ### Character-level primitives (modelling JS platform behaviour) -/

/-- Combining diacritical marks, the range `[̀-ͯ]` stripped by
`normalize` in `src/common/string.ts`. -/
def isCombiningMark (c : Char) : Bool :=
  0x300 ≤ c.toNat && c.toNat ≤ 0x36F

/-- `String.prototype.toLowerCase`, tabulated for the repertoire used here:
ASCII letters plus common precomposed Latin letters. Other characters are
left unchanged. -/
def jsLower (c : Char) : Char :=
  if 'A' ≤ c ∧ c ≤ 'Z' then Char.ofNat (c.toNat + 32)
  else if c = 'É' then 'é'
  else if c = 'È' then 'è'
  else if c = 'Ê' then 'ê'
  else if c = 'Ë' then 'ë'
  else if c = 'Á' then 'á'
  else if c = 'À' then 'à'
  else if c = 'Â' then 'â'
  else if c = 'Ä' then 'ä'
  else if c = 'Ó' then 'ó'
  else if c = 'Ö' then 'ö'
  else if c = 'Ü' then 'ü'
  else if c = 'Ñ' then 'ñ'
  else if c = 'Ç' then 'ç'
  else c

/-- Unicode NFKD decomposition (`String.prototype.normalize('NFKD')`),
tabulated for the same repertoire: precomposed Latin letters decompose into
the base letter followed by a combining mark; everything else is a singleton. -/
def nfkdChar (c : Char) : List Char :=
  if c = 'é' then ['e', Char.ofNat 0x301]
  else if c = 'è' then ['e', Char.ofNat 0x300]
  else if c = 'ê' then ['e', Char.ofNat 0x302]
  else if c = 'ë' then ['e', Char.ofNat 0x308]
  else if c = 'á' then ['a', Char.ofNat 0x301]
  else if c = 'à' then ['a', Char.ofNat 0x300]
  else if c = 'â' then ['a', Char.ofNat 0x302]
  else if c = 'ä' then ['a', Char.ofNat 0x308]
  else if c = 'ó' then ['o', Char.ofNat 0x301]
  else if c = 'ö' then ['o', Char.ofNat 0x308]
  else if c = 'ü' then ['u', Char.ofNat 0x308]
  else if c = 'ñ' then ['n', Char.ofNat 0x303]
  else if c = 'ç' then ['c', Char.ofNat 0x327]
  else [c]

/-- The first three stages of `normalize`: lower-case, NFKD-decompose, strip
combining diacritical marks. -/
def stripStage (s : List Char) : List Char :=
  ((s.map jsLower).flatMap nfkdChar).filter (fun c => !(isCombiningMark c))

/-! ### Bracket removal: `.replace(/\(.*?\)|\[.*?\]/g, ' ')`

The scan looks, at each position, for `(` (resp. `[`) followed lazily by any
non-newline characters up to the first `)` (resp. `]`); a match is replaced
by one space and scanning resumes after it.  `splitAtClose` performs the
lazy lookahead: it returns the characters strictly before the first closing
character together with the remainder after it, failing on a newline (the
JS `.` does not match line terminators) or at end of input. -/

def splitAtClose (close : Char) : List Char → Option (List Char × List Char)
  | [] => none
  | c :: rest =>
    if c = '\n' then none
    else if c = close then some ([], rest)
    else
      match splitAtClose close rest with
      | some (a, r) => some (c :: a, r)
      | none => none

/-- Fuelled scanner for the bracket-removal regex; `fuel ≥ length` always
suffices since every step consumes at least one input character. -/
def stripBracketsFuel : Nat → List Char → List Char
  | 0, _ => []
  | _ + 1, [] => []
  | fuel + 1, c :: rest =>
    if c = '(' then
      match splitAtClose ')' rest with
      | some (_, rest') => ' ' :: stripBracketsFuel fuel rest'
      | none => c :: stripBracketsFuel fuel rest
    else if c = '[' then
      match splitAtClose ']' rest with
      | some (_, rest') => ' ' :: stripBracketsFuel fuel rest'
      | none => c :: stripBracketsFuel fuel rest
    else c :: stripBracketsFuel fuel rest

def stripBrackets (s : List Char) : List Char :=
  stripBracketsFuel s.length s

/-! ### Feature-clause removal: `.replace(/\bfeat\.?\b.*$/gi, ' ')` and the
analogous `ft` rule.

At a position `i` the regex matches iff (a) a word boundary precedes `i`
(`i` is at the start or the previous character is not `[A-Za-z0-9_]`),
(b) the literal word starts at `i`, (c) after the word comes either end of
input or a non-word character (the optional dot and the second `\b` reduce
to exactly this condition), and (d) no line terminator occurs from `i` to
the end (otherwise `.*$` cannot reach the end anchor).  The whole remainder
is replaced by a single space.  The inputs reaching this stage are already
lower-cased, so the `i` flag needs no separate modelling. -/

def isWordChar (c : Char) : Bool :=
  ('a' ≤ c && c ≤ 'z') || ('A' ≤ c && c ≤ 'Z') || ('0' ≤ c && c ≤ '9') || c = '_'

/-- `w` is a literal leading segment of `s`. -/
def isPre : List Char → List Char → Bool
  | [], _ => true
  | _ :: _, [] => false
  | a :: w, b :: s => a = b && isPre w s

/-- Condition (c) above: after the matched word comes end of input or a
non-word character. -/
def afterOK (w : List Char) (s : List Char) : Bool :=
  match s.drop w.length with
  | [] => true
  | c :: _ => !(isWordChar c)

/-- One `\b<word>\.?\b.*$`-style replacement pass: scan for the leftmost
match and replace the remainder with one space.  `prevW` records whether the
previous character was a word character (initially false: start of input). -/
def cutAux (w : List Char) (prevW : Bool) : List Char → List Char
  | [] => []
  | c :: rest =>
    if !prevW && isPre w (c :: rest) && afterOK w (c :: rest) && !((c :: rest).contains '\n') then
      [' ']
    else c :: cutAux w (isWordChar c) rest

def featChars : List Char := ['f', 'e', 'a', 't']

def ftChars : List Char := ['f', 't']

def featCut (s : List Char) : List Char := cutAux featChars false s

def ftCut (s : List Char) : List Char := cutAux ftChars false s

/-! ### Non-alphanumeric collapsing and trimming -/

def isLowerAlnum (c : Char) : Bool :=
  ('a' ≤ c && c ≤ 'z') || ('0' ≤ c && c ≤ '9')

mutual

/-- `.replace(/[^a-z0-9]+/g, ' ')`: maximal runs of non-`[a-z0-9]`
characters become a single space. -/
def collapse : List Char → List Char
  | [] => []
  | c :: rest =>
    if isLowerAlnum c then c :: collapse rest
    else ' ' :: collapseSkip rest

/-- Inside a non-alphanumeric run (its space has been emitted). -/
def collapseSkip : List Char → List Char
  | [] => []
  | c :: rest =>
    if isLowerAlnum c then c :: collapse rest
    else collapseSkip rest

end

def isJsWhitespace (c : Char) : Bool :=
  c = ' ' || c = '\t' || c = '\n' || c = '\r' || c = Char.ofNat 0x0B || c = Char.ofNat 0x0C

def trimLeft (s : List Char) : List Char :=
  s.dropWhile isJsWhitespace

def trimRight : List Char → List Char
  | [] => []
  | c :: rest =>
    match trimRight rest with
    | [] => if isJsWhitespace c then [] else [c]
    | r => c :: r

/-- `String.prototype.trim`. -/
def jsTrim (s : List Char) : List Char :=
  trimLeft (trimRight s)

/-! ### `normalize` and `buildSongKey` (src/common/string.ts) -/

/-- `normalize` from `src/common/string.ts`: lower-case, NFKD, strip
combining marks, remove bracketed fragments, remove `feat`/`ft` clauses,
collapse non-alphanumeric runs to single spaces, trim. -/
def normalize (s : String) : String :=
  ⟨jsTrim (collapse (ftCut (featCut (stripBrackets (stripStage s.data)))))⟩

/-- `buildSongKey` from `src/common/string.ts`. -/
def buildSongKey (artist title : String) : String :=
  normalize artist ++ "|" ++ normalize title

/-! ### Substring search (JS `String.prototype.includes` / `indexOf`) -/

/-- `s.includes(w)` — `w` occurs contiguously in `s`. -/
def occursIn (w : List Char) : List Char → Bool
  | [] => isPre w []
  | c :: rest => isPre w (c :: rest) || occursIn w rest

/-- `s.indexOf(w)` as an option (JS returns `-1` when absent). -/
def indexOfSub (w : List Char) : List Char → Option Nat
  | [] => if isPre w [] then some 0 else none
  | c :: rest =>
    if isPre w (c :: rest) then some 0
    else (indexOfSub w rest).map (· + 1)

/-- `a.includes(b)` on strings. -/
def strContains (a b : String) : Bool :=
  occursIn b.data a.data

/-! ### `normalizePlaylistId` (src/cli/utils.ts) -/

def playlistMarker : String := "spotify.com/playlist/"

def playlistSeg : String := "/playlist/"

/-- `normalizePlaylistId`: keep a plain id, or cut the id out of a Spotify
playlist URL.  The `-1` sentinel of JS `indexOf` is modelled with `Int`
exactly as the source combines it with `slice`. -/
def normalizePlaylistId (playlist : String) : String :=
  let trimmed := jsTrim playlist.data
  if !(occursIn playlistMarker.data trimmed) then ⟨trimmed⟩
  else
    let slashIndex : Int := ((indexOfSub playlistSeg.data trimmed).map Int.ofNat).getD (-1)
    let withoutPrefix := trimmed.drop (slashIndex + playlistSeg.data.length).toNat
    let queryIndex : Int := ((indexOfSub ['?'] withoutPrefix).map Int.ofNat).getD (-1)
    ⟨jsTrim (if queryIndex = -1 then withoutPrefix else withoutPrefix.take queryIndex.toNat)⟩

/-! ### `buildWindows` (src/cli/utils.ts)

The source strides `from` upwards by `windowHours` while `from < timeTo`.
The recursion is fuelled (fuel `timeTo` suffices for every `windowHours ≥ 1`;
for `windowHours = 0` the source loop would not terminate, and every claim
assumes `windowHours ∈ {1,2}`). -/

/-- `TimeWindow` from `src/common/types.ts`; the source fields are named
`from`/`to` (`from` is a Lean keyword, hence the `H` suffix). -/
structure TimeWindow where
  fromH : Nat
  toH : Nat
deriving DecidableEq, Repr

def buildWindowsGo (timeTo windowHours : Nat) : Nat → Nat → List TimeWindow
  | 0, _ => []
  | fuel + 1, f =>
    if f < timeTo then
      ⟨f, min (f + windowHours) timeTo⟩ :: buildWindowsGo timeTo windowHours fuel (f + windowHours)
    else []

def buildWindows (timeFrom timeTo windowHours : Nat) : List TimeWindow :=
  buildWindowsGo timeTo windowHours timeTo timeFrom

/-- The `${window.from}-${window.to}` key used for `ProcessedWindowMemory`. -/
def windowKey (w : TimeWindow) : String :=
  Nat.repr w.fromH ++ "-" ++ Nat.repr w.toH

/-! ### Warsaw-timezone window predicates (src/odsluchane/utils.ts)

The source functions read the current Warsaw wall-clock parts from the
platform and parse the `DD-MM-YYYY` target date; both are explicit
parameters here. -/

structure ParsedInputDate where
  day : Nat
  month : Nat
  year : Nat
deriving DecidableEq, Repr

structure WarsawNowParts where
  year : Nat
  month : Nat
  day : Nat
  hour : Nat
  minute : Nat
deriving DecidableEq, Repr

def dateKey (year month day : Nat) : Nat :=
  year * 10000 + month * 100 + day

def isWindowFullyInPastInWarsaw (nowParts : WarsawNowParts) (targetDate : ParsedInputDate)
    (windowToHour : Nat) : Bool :=
  let todayKey := dateKey nowParts.year nowParts.month nowParts.day
  let targetKey := dateKey targetDate.year targetDate.month targetDate.day
  if targetKey < todayKey then true
  else if targetKey > todayKey then false
  else
    let nowMinutes := nowParts.hour * 60 + nowParts.minute
    let windowEndMinutes := windowToHour * 60
    decide (nowMinutes ≥ windowEndMinutes)

def isWindowFullyInFutureInWarsaw (nowParts : WarsawNowParts) (targetDate : ParsedInputDate)
    (windowFromHour : Nat) : Bool :=
  let todayKey := dateKey nowParts.year nowParts.month nowParts.day
  let targetKey := dateKey targetDate.year targetDate.month targetDate.day
  if targetKey > todayKey then true
  else if targetKey < todayKey then false
  else
    let nowMinutes := nowParts.hour * 60 + nowParts.minute
    let windowStartMinutes := windowFromHour * 60
    decide (windowStartMinutes > nowMinutes)

/-! ### Spotify data model (src/spotify/types.ts) -/

structure SpotifyArtist where
  name : String
deriving DecidableEq, Repr

structure SpotifyAlbum where
  album_type : String
  name : String
deriving DecidableEq, Repr

structure SpotifyTrack where
  id : String
  uri : String
  name : String
  artists : List SpotifyArtist
  popularity : Nat
  album : SpotifyAlbum
deriving DecidableEq, Repr

structure ScrapedSong where
  playedAt : String
  rawLabel : String
  artist : String
  title : String
  sourceUrl : String
deriving DecidableEq, Repr

/-! ### Candidate scoring and disambiguation (`chooseBestTrack`)

Scores live in `ℚ`; the only non-integer contribution is
`min(popularity,100)/15`, so any two distinct scores differ by at least
`1/15`, far above double-precision rounding — the IEEE-754 comparisons of
the source therefore agree with exact rational arithmetic on integer
popularity values. -/

/-- The per-candidate score computed inside `chooseBestTrack`. -/
def trackScore (expectedTitle expectedArtist : String) (track : SpotifyTrack) : ℚ :=
  let trackTitle := normalize track.name
  let trackArtists := (track.artists.map (fun a => normalize a.name)).filter
    (fun a => a.length > 0)
  let titlePts : ℚ :=
    if trackTitle = expectedTitle then 120
    else if strContains trackTitle expectedTitle || strContains expectedTitle trackTitle then 75
    else 0
  let artistPts : ℚ :=
    if expectedArtist ≠ "" ∧ trackArtists.any (fun artist =>
        artist = expectedArtist || strContains artist expectedArtist
          || strContains expectedArtist artist) then 100
    else 0
  let albumPts : ℚ := if track.album.album_type = "album" then 28 else 0
  let singlePts : ℚ := if track.album.album_type = "single" then -12 else 0
  titlePts + artistPts + albumPts + singlePts + (min track.popularity 100 : ℚ) / 15

structure ScoredCandidate where
  track : SpotifyTrack
  score : ℚ
deriving DecidableEq

/-- Stable insertion step of `Array.prototype.toSorted((a, b) => b.score - a.score)`:
`x` goes before the first element whose score is not larger. -/
def insertDesc (x : ScoredCandidate) : List ScoredCandidate → List ScoredCandidate
  | [] => [x]
  | y :: ys => if y.score > x.score then y :: insertDesc x ys else x :: y :: ys

/-- Stable descending sort by score. -/
def sortByScoreDesc : List ScoredCandidate → List ScoredCandidate
  | [] => []
  | x :: xs => insertDesc x (sortByScoreDesc xs)

/-- `chooseBestTrack` from `src/cli/index.ts`.  The source throws on an
empty candidate list; that is modelled by `none`. -/
def chooseBestTrack (song : ScrapedSong) (candidates : List SpotifyTrack) :
    Option SpotifyTrack :=
  let expectedTitle := normalize song.title
  let expectedArtist := normalize song.artist
  let scored := candidates.map (fun t => ⟨t, trackScore expectedTitle expectedArtist t⟩)
  let sortedByScore := sortByScoreDesc scored
  match sortedByScore with
  | [] => none
  | best :: _ =>
    match sortedByScore.find? (fun c => c.track.album.album_type == "album") with
    | some bestAlbumCandidate =>
      if best.track.album.album_type = "single" ∧ bestAlbumCandidate.score ≥ best.score - 12
      then some bestAlbumCandidate.track
      else some best.track
    | none => some best.track

/-- `findTrackForSong`: the Spotify search is an external collaborator,
modelled as a function from the scraped song to its candidate list (the
query-string construction has no bearing on any claim); an empty candidate
list yields no match, otherwise `chooseBestTrack` decides. -/
def findTrackForSong (search : ScrapedSong → List SpotifyTrack) (song : ScrapedSong) :
    Option SpotifyTrack :=
  chooseBestTrack song (search song)

/-! Specification-side selection, following the words of the claim:
score every candidate, take the highest-scoring one (earliest on ties), and
prefer the best album-classified candidate when the top scorer is a single
within 12 points. -/

/-- Earliest maximum of `f` among elements satisfying `p`. -/
def pickBestP (p : SpotifyTrack → Bool) (f : SpotifyTrack → ℚ) :
    List SpotifyTrack → Option SpotifyTrack
  | [] => none
  | x :: xs =>
    let r := pickBestP p f xs
    if p x then
      match r with
      | none => some x
      | some b => if f b > f x then some b else some x
    else r

/-- The claim's selection rule, parameterised by the scoring function. -/
def chooseSpec (score : SpotifyTrack → ℚ) (cs : List SpotifyTrack) : Option SpotifyTrack :=
  match pickBestP (fun _ => true) score cs with
  | none => none
  | some best =>
    match pickBestP (fun t => t.album.album_type == "album") score cs with
    | some ba =>
      if best.album.album_type = "single" ∧ score ba ≥ score best - 12 then some ba
      else some best
    | none => some best

/-- The claim's scoring formula taken literally: the artist bonus fires when
*some* candidate artist's normalized name equals, contains, or is contained
by the expected artist — with no restriction to non-empty normalized names. -/
def claimTrackScore (song : ScrapedSong) (t : SpotifyTrack) : ℚ :=
  let expectedTitle := normalize song.title
  let expectedArtist := normalize song.artist
  let titlePts : ℚ :=
    if normalize t.name = expectedTitle then 120
    else if strContains (normalize t.name) expectedTitle
        || strContains expectedTitle (normalize t.name) then 75
    else 0
  let artistPts : ℚ :=
    if expectedArtist ≠ "" ∧ t.artists.any (fun a =>
        normalize a.name = expectedArtist || strContains (normalize a.name) expectedArtist
          || strContains expectedArtist (normalize a.name)) then 100
    else 0
  let releasePts : ℚ :=
    if t.album.album_type = "album" then 28
    else if t.album.album_type = "single" then -12
    else 0
  titlePts + artistPts + releasePts + (min t.popularity 100 : ℚ) / 15

/-- The claim's scoring formula amended minimally: the artist bonus only
considers candidate artists whose normalized name is non-empty (as the
source's `.filter((artist) => artist.length > 0)` does). -/
def amendedTrackScore (song : ScrapedSong) (t : SpotifyTrack) : ℚ :=
  let expectedTitle := normalize song.title
  let expectedArtist := normalize song.artist
  let titlePts : ℚ :=
    if normalize t.name = expectedTitle then 120
    else if strContains (normalize t.name) expectedTitle
        || strContains expectedTitle (normalize t.name) then 75
    else 0
  let artistPts : ℚ :=
    if expectedArtist ≠ "" ∧ t.artists.any (fun a =>
        normalize a.name ≠ "" ∧ (normalize a.name = expectedArtist
          || strContains (normalize a.name) expectedArtist
          || strContains expectedArtist (normalize a.name))) then 100
    else 0
  let releasePts : ℚ :=
    if t.album.album_type = "album" then 28
    else if t.album.album_type = "single" then -12
    else 0
  titlePts + artistPts + releasePts + (min t.popularity 100 : ℚ) / 15

/-! ### Resilient request layer (src/common/fetch.ts)

`fetchWithRetry` is modelled as a pure loop over a script of per-attempt
outcomes; the `retry-after` header together with JS `Number`/`Date.parse`
is modelled as a small sum type, and "now" (`Date.now()`) is an explicit
parameter.  Delays requested before re-attempts are returned as a list. -/

inductive RetryAfterHeader
  | absent
  | numeric (seconds : Int)
  | httpDate (timestamp : Int)
  | unparseable
deriving DecidableEq, Repr

def MIN_RETRY_AFTER_MS : Int := 1500

def MAX_RETRY_AFTER_MS : Int := 10000

def BACKOFF_STEP_MS : Int := 1500

/-- `getRetryAfterMilliseconds` from `src/common/fetch.ts`. -/
def getRetryAfterMilliseconds (h : RetryAfterHeader) (now : Int) : Int :=
  match h with
  | .absent => MIN_RETRY_AFTER_MS
  | .numeric seconds => max (seconds * 1000) MIN_RETRY_AFTER_MS
  | .httpDate timestamp => max (timestamp - now) MIN_RETRY_AFTER_MS
  | .unparseable => MIN_RETRY_AFTER_MS

/-- `getBackoffDelayMilliseconds` from `src/common/fetch.ts`. -/
def getBackoffDelayMilliseconds (attempt : Nat) : Int :=
  max ((attempt : Int) * BACKOFF_STEP_MS) MIN_RETRY_AFTER_MS

/-- The claim's unclamped retry-after hint: header seconds in milliseconds,
or a remaining-milliseconds delta for an HTTP date, or 1500 when the header
is absent or unparseable. -/
def specRetryAfterHintMs (h : RetryAfterHeader) (now : Int) : Int :=
  match h with
  | .absent => 1500
  | .numeric seconds => seconds * 1000
  | .httpDate timestamp => timestamp - now
  | .unparseable => 1500

inductive AttemptResult
  | response (status : Nat) (retryAfter : RetryAfterHeader)
  | networkError
deriving DecidableEq, Repr

inductive FetchOutcome
  | ok (status : Nat)
  | failed
deriving DecidableEq, Repr

/-- One execution of the `retry` loop of `fetchWithRetry`, starting at
`attempt`; returns the outcome together with the list of delays awaited
between attempts.  The recursion is fuelled (fuel `totalAttempts` suffices:
on the last attempt no retryable error is thrown). -/
def runFetchGo (script : Nat → AttemptResult) (now : Int) (totalAttempts : Nat) :
    Nat → Nat → FetchOutcome × List Int
  | 0, _ => (.failed, [])
  | fuel + 1, attempt =>
    let isLastAttempt := totalAttempts - 1 ≤ attempt
    match script attempt with
    | .networkError =>
      if isLastAttempt then (.failed, [])
      else
        let d := getBackoffDelayMilliseconds (attempt + 1)
        let r := runFetchGo script now totalAttempts fuel (attempt + 1)
        (r.1, d :: r.2)
    | .response status h =>
      if status = 429 ∧ ¬isLastAttempt then
        let retryAfterMs := getRetryAfterMilliseconds h now
        if retryAfterMs > MAX_RETRY_AFTER_MS then (.ok status, [])
        else
          let r := runFetchGo script now totalAttempts fuel (attempt + 1)
          (r.1, retryAfterMs :: r.2)
      else if 500 ≤ status ∧ ¬isLastAttempt then
        let d := getBackoffDelayMilliseconds (attempt + 1)
        let r := runFetchGo script now totalAttempts fuel (attempt + 1)
        (r.1, d :: r.2)
      else (.ok status, [])

/-- `fetchWithRetry` with `maxRetries` as in the source
(`totalAttempts = Math.max(1, maxRetries)`). -/
def fetchWithRetry (script : Nat → AttemptResult) (now : Int) (maxRetries : Nat) :
    FetchOutcome × List Int :=
  let totalAttempts := max 1 maxRetries
  runFetchGo script now totalAttempts totalAttempts 0

/-! ### Persisted state (src/common/types.ts, src/cli/index.ts)

JS string-keyed objects are modelled as association lists; `aset` has JS
assignment semantics (replace in place, else append). -/

def aget {β : Type} : List (String × β) → String → Option β
  | [], _ => none
  | (k', v) :: t, k => if k' = k then some v else aget t k

def aset {β : Type} : List (String × β) → String → β → List (String × β)
  | [], k, v => [(k, v)]
  | (k', v') :: t, k, v => if k' = k then (k, v) :: t else (k', v') :: aset t k v

structure State where
  version : Nat
  stationPlaylists : List (String × String)
  scrapedWindows : List (String × List (String × List (String × Bool)))
deriving DecidableEq, Repr

/-- `isWindowAlreadyProcessed` from `src/cli/index.ts`:
`Boolean(state.scrapedWindows[stationId]?.[date]?.[windowKey])`. -/
def isWindowAlreadyProcessed (s : State) (stationId date wk : String) : Bool :=
  match aget s.scrapedWindows stationId with
  | none => false
  | some l1 =>
    match aget l1 date with
    | none => false
    | some l2 => (aget l2 wk).getD false

/-- `markWindowProcessed` from `src/cli/index.ts`: `??= {}` on the two outer
levels, then set the window key to `true`. -/
def markWindowProcessed (s : State) (stationId date wk : String) : State :=
  let level1 := (aget s.scrapedWindows stationId).getD []
  let level2 := (aget level1 date).getD []
  { s with scrapedWindows :=
              aset s.scrapedWindows stationId (aset level1 date (aset level2 wk true)) }

structure SyncStats where
  windowsPlanned : Nat
  windowsSkippedAlreadyDone : Nat
  windowsSkippedFuture : Nat
  windowsProcessed : Nat
  windowsNotMarkedNotInPast : Nat
  songsScraped : Nat
  songsDuplicateSkipped : Nat
  songsAlreadyInPlaylistSkipped : Nat
  songsMatched : Nat
  songsUnmatched : Nat
  tracksAdded : Nat
deriving DecidableEq, Repr

def zeroStats : SyncStats := ⟨0, 0, 0, 0, 0, 0, 0, 0, 0, 0, 0⟩

/-- JS `Set.prototype.add` on the insertion-ordered element list. -/
def setAdd (l : List String) (k : String) : List String :=
  if k ∈ l then l else l ++ [k]

/-- Externally visible operations performed by the sync loop: playlist
mutation (`spotify.addTracksToPlaylist`) and state persistence
(`saveState`). -/
inductive Effect
  | addTracks (playlistId : String) (uris : List String) (position : Nat)
  | saveState (s : State)
deriving DecidableEq, Repr

/-- The mutable state threaded through `runSyncCommand`'s window loop:
the persisted `state`, `runSeenSongKeys`, the two playlist-index sets and
the stats accumulator. -/
structure LoopState where
  state : State
  runSeen : List String
  trackIds : List String
  songKeys : List String
  stats : SyncStats
deriving DecidableEq, Repr

def joinSpace (l : List String) : String :=
  String.intercalate (String.singleton ' ') l

/-- The body of `for (const [index, song] of songs.entries())` in
`runSyncCommand`; `uris` is the `urisToAdd` accumulator.  The inter-song
pacing delay has no observable effect in this model. -/
def processSong (search : ScrapedSong → List SpotifyTrack) (ls : LoopState)
    (uris : List String) (song : ScrapedSong) : LoopState × List String :=
  let songKey := buildSongKey song.artist song.title
  if songKey ∈ ls.runSeen then
    ({ ls with stats :=
        { ls.stats with songsDuplicateSkipped := ls.stats.songsDuplicateSkipped + 1 } }, uris)
  else if songKey ∈ ls.songKeys then
    ({ ls with runSeen := setAdd ls.runSeen songKey,
               stats := { ls.stats with songsAlreadyInPlaylistSkipped :=
                 ls.stats.songsAlreadyInPlaylistSkipped + 1 } }, uris)
  else
    match findTrackForSong search song with
    | none =>
      ({ ls with runSeen := setAdd ls.runSeen songKey,
                 stats := { ls.stats with songsUnmatched := ls.stats.songsUnmatched + 1 } },
       uris)
    | some spotifyTrack =>
      let matchedSongKey :=
        buildSongKey (joinSpace (spotifyTrack.artists.map SpotifyArtist.name)) spotifyTrack.name
      if spotifyTrack.id ∈ ls.trackIds then
        ({ ls with runSeen := setAdd ls.runSeen songKey,
                   songKeys := setAdd (setAdd ls.songKeys songKey) matchedSongKey,
                   stats := { ls.stats with songsAlreadyInPlaylistSkipped :=
                     ls.stats.songsAlreadyInPlaylistSkipped + 1 } }, uris)
      else
        ({ ls with runSeen := setAdd ls.runSeen songKey,
                   trackIds := setAdd ls.trackIds spotifyTrack.id,
                   songKeys := setAdd (setAdd ls.songKeys songKey) matchedSongKey,
                   stats := { ls.stats with songsMatched := ls.stats.songsMatched + 1 } },
         uris ++ [spotifyTrack.uri])

def processSongs (search : ScrapedSong → List SpotifyTrack) :
    List ScrapedSong → LoopState → List String → LoopState × List String
  | [], ls, uris => (ls, uris)
  | song :: rest, ls, uris =>
    let r := processSong search ls uris song
    processSongs search rest r.1 r.2

/-- The sync loop's external collaborators: the scrape source and Spotify
search (pure functions of the window index resp. the song), the Warsaw
clock as observed at a window's first check and at its commit check, and
the playlist track index loaded before the loop. -/
structure SyncEnv where
  scrape : Nat → List ScrapedSong
  search : ScrapedSong → List SpotifyTrack
  nowAtStart : Nat → WarsawNowParts
  nowAtCommit : Nat → WarsawNowParts
  initTrackIds : List String
  initSongKeys : List String

structure SyncConfig where
  stationId : String
  dateStr : String
  targetDate : ParsedInputDate
  playlistId : String
  dryRun : Bool
  force : Bool

/-- One iteration of `for (const window of windows)` in `runSyncCommand`:
future-skip, already-done-skip, or scrape + match + add + mark. -/
def processWindow (env : SyncEnv) (cfg : SyncConfig) (i : Nat) (w : TimeWindow)
    (ls : LoopState) : LoopState × List Effect :=
  let wk := windowKey w
  if isWindowFullyInFutureInWarsaw (env.nowAtStart i) cfg.targetDate w.fromH then
    ({ ls with stats :=
        { ls.stats with windowsSkippedFuture := ls.stats.windowsSkippedFuture + 1 } }, [])
  else if ¬cfg.force ∧ isWindowAlreadyProcessed ls.state cfg.stationId cfg.dateStr wk then
    ({ ls with stats :=
        { ls.stats with windowsSkippedAlreadyDone := ls.stats.windowsSkippedAlreadyDone + 1 } },
     [])
  else
    let songs := env.scrape i
    let ls1 := { ls with stats :=
      { ls.stats with songsScraped := ls.stats.songsScraped + songs.length } }
    let r := processSongs env.search songs ls1 []
    let ls2 := r.1
    let urisToAdd := r.2
    let step3 : LoopState × List Effect :=
      if ¬cfg.dryRun ∧ urisToAdd ≠ [] then
        ({ ls2 with stats :=
            { ls2.stats with tracksAdded := ls2.stats.tracksAdded + urisToAdd.length } },
         [.addTracks cfg.playlistId urisToAdd.reverse 0])
      else (ls2, [])
    let ls3 := step3.1
    let step4 : LoopState × List Effect :=
      if ¬cfg.dryRun ∧ isWindowFullyInPastInWarsaw (env.nowAtCommit i) cfg.targetDate w.toH then
        let st := markWindowProcessed ls3.state cfg.stationId cfg.dateStr wk
        ({ ls3 with state := st }, [.saveState st])
      else if ¬cfg.dryRun then
        ({ ls3 with stats := { ls3.stats with windowsNotMarkedNotInPast :=
            ls3.stats.windowsNotMarkedNotInPast + 1 } }, [])
      else (ls3, [])
    let ls4 := step4.1
    ({ ls4 with stats :=
        { ls4.stats with windowsProcessed := ls4.stats.windowsProcessed + 1 } },
     step3.2 ++ step4.2)

/-- The whole window loop, with `i` the position of the current window. -/
def runWindows (env : SyncEnv) (cfg : SyncConfig) :
    Nat → List TimeWindow → LoopState → LoopState × List Effect
  | _, [], ls => (ls, [])
  | i, w :: ws, ls =>
    let r := processWindow env cfg i w ls
    let rest := runWindows env cfg (i + 1) ws r.1
    (rest.1, r.2 ++ rest.2)

structure SyncArgs where
  stationId : String
  dateStr : String
  targetDate : ParsedInputDate
  timeFrom : Nat
  timeTo : Nat
  windowHours : Nat
  playlist : Option String
  dryRun : Bool
  force : Bool

def invalidRangeMsg : String := "Invalid --from/--to values. Expected 0 <= from < to <= 24."

def invalidWindowMsg : String := "Invalid --window value. odsluchane supports max 2 hours per request."

def noPlaylistMsg : String := "No playlist mapped for station."

/-- `runSyncCommand` from `src/cli/index.ts`, from the range validations
onward: optional `--playlist` mapping write-and-save, playlist lookup,
window planning and the window loop.  Hours are `Nat`, so the source's
`timeFrom < 0` guard cannot fire; the JS truthiness of `args.playlist`
excludes the empty string. -/
def runSyncCommand (env : SyncEnv) (args : SyncArgs) (state0 : State) :
    Except String (LoopState × List Effect) :=
  if args.timeFrom > 23 ∨ args.timeTo < 1 ∨ args.timeTo > 24 ∨ args.timeFrom ≥ args.timeTo then
    .error invalidRangeMsg
  else if args.windowHours < 1 ∨ args.windowHours > 2 then
    .error invalidWindowMsg
  else
    let applied : State × List Effect :=
      match args.playlist with
      | some p =>
        if p = "" then (state0, [])
        else
          let mapped := aset state0.stationPlaylists args.stationId (normalizePlaylistId p)
          let st := { state0 with stationPlaylists := mapped }
          (st, [.saveState st])
      | none => (state0, [])
    let state1 := applied.1
    match aget state1.stationPlaylists args.stationId with
    | none => .error noPlaylistMsg
    | some playlistId =>
      if playlistId = "" then .error noPlaylistMsg
      else
      let windows := buildWindows args.timeFrom args.timeTo args.windowHours
      let cfg : SyncConfig :=
        ⟨args.stationId, args.dateStr, args.targetDate, playlistId, args.dryRun, args.force⟩
      let ls0 : LoopState :=
        ⟨state1, [], env.initTrackIds, env.initSongKeys,
          { zeroStats with windowsPlanned := windows.length }⟩
      let r := runWindows env cfg 0 windows ls0
      .ok (r.1, applied.2 ++ r.2)

/-! ## Theorems -/

/-! ### C9: the 429 retry policy of `fetchWithRetry` -/

/-- C9: in `fetchWithRetry`, an HTTP 429 on a non-final attempt is retried
after a delay equal to the retry-after hint (header seconds in milliseconds,
or an HTTP-date delta, or 1500 ms when absent/unparseable) clamped to at
least 1500 ms — unless the hint exceeds 10000 ms, in which case the 429
response is returned as-is with no retry; on the final attempt the 429
response is returned regardless of the header. -/
theorem C9_fetch429_retry_policy (script : Nat → AttemptResult) (now : Int)
    (N a fuel : Nat) (h : RetryAfterHeader)
    (hS : script a = .response 429 h) (haN : a < N) :
    getRetryAfterMilliseconds h now = max (specRetryAfterHintMs h now) 1500 ∧
    1500 ≤ getRetryAfterMilliseconds h now ∧
    (a < N - 1 →
      (getRetryAfterMilliseconds h now ≤ 10000 →
        runFetchGo script now N (fuel + 1) a =
          ((runFetchGo script now N fuel (a + 1)).1,
            getRetryAfterMilliseconds h now :: (runFetchGo script now N fuel (a + 1)).2)) ∧
      (10000 < getRetryAfterMilliseconds h now →
        runFetchGo script now N (fuel + 1) a = (.ok 429, []))) ∧
    (N - 1 ≤ a → runFetchGo script now N (fuel + 1) a = (.ok 429, [])) := by
  refine ⟨?_, ?_, ?_, ?_⟩
  · cases h <;>
      simp [getRetryAfterMilliseconds, specRetryAfterHintMs, MIN_RETRY_AFTER_MS]
  · cases h <;>
      simp [getRetryAfterMilliseconds, MIN_RETRY_AFTER_MS]
  · intro hlt
    have hnl : ¬(N - 1 ≤ a) := by omega
    constructor
    · intro hle
      have hngt : ¬(getRetryAfterMilliseconds h now > MAX_RETRY_AFTER_MS) := by
        simp [MAX_RETRY_AFTER_MS]; omega
      simp [runFetchGo, hS, hnl, hngt]
    · intro hgt
      have hgt' : getRetryAfterMilliseconds h now > MAX_RETRY_AFTER_MS := by
        simp [MAX_RETRY_AFTER_MS]; omega
      simp [runFetchGo, hS, hnl, hgt']
  · intro hge
    simp [runFetchGo, hS, hge]

def script429 : Nat → AttemptResult := fun _ => .response 429 (.numeric 3)

/-- Witness for C9 at a concrete script (always 429 with `retry-after: 3`):
attempt 0 of 4 retries after a 3000 ms delay. -/
theorem C9_fetch429_retry_policy_witness :
    script429 0 = .response 429 (.numeric 3) ∧ 0 < 4 ∧
    (getRetryAfterMilliseconds (.numeric 3) 0 = max (specRetryAfterHintMs (.numeric 3) 0) 1500 ∧
      1500 ≤ getRetryAfterMilliseconds (.numeric 3) 0 ∧
      (0 < 4 - 1 →
        (getRetryAfterMilliseconds (.numeric 3) 0 ≤ 10000 →
          runFetchGo script429 0 4 (3 + 1) 0 =
            ((runFetchGo script429 0 4 3 (0 + 1)).1,
              getRetryAfterMilliseconds (.numeric 3) 0 :: (runFetchGo script429 0 4 3 (0 + 1)).2)) ∧
        (10000 < getRetryAfterMilliseconds (.numeric 3) 0 →
          runFetchGo script429 0 4 (3 + 1) 0 = (.ok 429, []))) ∧
      (4 - 1 ≤ 0 → runFetchGo script429 0 4 (3 + 1) 0 = (.ok 429, []))) :=
  ⟨rfl, by decide, C9_fetch429_retry_policy script429 0 4 0 3 (.numeric 3) rfl (by decide)⟩

/-! ### C5: `buildWindows` covers the hour range by striding -/

lemma numWin_succ (f t w : Nat) (hw : 0 < w) (hft : f < t) :
    (t - f + w - 1) / w = (t - f - 1) / w + 1 := by
  have h1 : t - f + w - 1 = (t - f - 1) + w := by omega
  rw [h1, Nat.add_div_right _ hw]

lemma stride_le (a w i : Nat) (hi : i ≤ a / w) : i * w ≤ a :=
  calc i * w ≤ a / w * w := Nat.mul_le_mul_right w hi
  _ ≤ a := Nat.div_mul_le_self a w

lemma stride_last (a w : Nat) (hw : 0 < w) : a < a / w * w + w := by
  have h1 := Nat.div_add_mod a w
  have h2 := Nat.mod_lt a hw
  rw [Nat.mul_comm]
  omega

/-- Striding characterization of `buildWindowsGo` under sufficient fuel. -/
lemma buildWindowsGo_spec (t w : Nat) (hw : 0 < w) :
    ∀ fuel f, t - f ≤ fuel →
      buildWindowsGo t w fuel f =
        (List.range ((t - f + w - 1) / w)).map
          (fun i => ⟨f + i * w, min (f + i * w + w) t⟩) := by
  intro fuel
  induction fuel with
  | zero =>
    intro f hf
    have h0 : t - f = 0 := by omega
    have hdiv : (t - f + w - 1) / w = 0 := by
      rw [h0]
      exact Nat.div_eq_of_lt (by omega)
    simp [buildWindowsGo, hdiv]
  | succ fuel ih =>
    intro f hf
    by_cases hft : f < t
    · have hk := numWin_succ f t w hw hft
      have hk2 : (t - (f + w) + w - 1) / w = (t - f - 1) / w := by
        by_cases hfw : f + w ≤ t
        · have : t - (f + w) + w - 1 = t - f - 1 := by omega
          rw [this]
        · have ha : t - (f + w) + w - 1 = w - 1 := by omega
          have hb : t - f - 1 < w := by omega
          rw [ha, Nat.div_eq_of_lt (by omega), Nat.div_eq_of_lt hb]
      rw [buildWindowsGo, if_pos hft, ih (f + w) (by omega), hk2, hk,
        List.range_succ_eq_map]
      simp only [List.map_cons, List.map_map]
      refine congrArg₂ _ (by simp) ?_
      refine List.map_congr_left fun i _ => ?_
      simp only [Function.comp_apply, Nat.succ_eq_add_one, Nat.succ_mul]
      refine congrArg₂ _ (by omega) (congrArg₂ _ (by omega) rfl)
    · have h0 : t - f = 0 := by omega
      have hdiv : (t - f + w - 1) / w = 0 := by
        rw [h0]
        exact Nat.div_eq_of_lt (by omega)
      rw [buildWindowsGo, if_neg hft]
      simp [hdiv]

/-- Striding characterization of `buildWindows` for a positive stride. -/
lemma buildWindows_spec (f t w : Nat) (hw : 0 < w) :
    buildWindows f t w =
      (List.range ((t - f + w - 1) / w)).map
        (fun i => ⟨f + i * w, min (f + i * w + w) t⟩) :=
  buildWindowsGo_spec t w hw t f (by omega)

/-- C5: for `0 ≤ f < t ≤ 24` and `w ∈ {1,2}`, `buildWindows f t w` is the
strided window list: the `i`-th window is `[f+i·w, min(f+i·w+w, t))`, the
list is non-empty, starts at `f`, ends at `t`, is contiguous (each window
starts where the previous one ends, so no gaps and no overlaps), every
window is non-degenerate and at most `w` wide, and all windows except
possibly the last are exactly `w` wide. -/
theorem C5_buildWindows (f t w : Nat) (h1 : f < t) (h2 : t ≤ 24) (h3 : w = 1 ∨ w = 2) :
    buildWindows f t w ≠ [] ∧
    (buildWindows f t w).length = (t - f + w - 1) / w ∧
    (∀ i (hi : i < (buildWindows f t w).length),
      (buildWindows f t w).get ⟨i, hi⟩ = ⟨f + i * w, min (f + i * w + w) t⟩) ∧
    (buildWindows f t w).head?.map TimeWindow.fromH = some f ∧
    (buildWindows f t w).getLast?.map TimeWindow.toH = some t ∧
    List.Chain' (fun a b => a.toH = b.fromH) (buildWindows f t w) ∧
    (∀ win ∈ buildWindows f t w, win.fromH < win.toH ∧ win.toH ≤ win.fromH + w) ∧
    (∀ i (hi : i + 1 < (buildWindows f t w).length),
      ((buildWindows f t w).get ⟨i, by omega⟩).toH
        = ((buildWindows f t w).get ⟨i, by omega⟩).fromH + w) := by
  have hw : 0 < w := by omega
  have hspec := buildWindows_spec f t w hw
  have hks := numWin_succ f t w hw h1
  have hlen : (buildWindows f t w).length = (t - f + w - 1) / w := by
    rw [hspec]; simp
  have hget : ∀ i (hi : i < (buildWindows f t w).length),
      (buildWindows f t w).get ⟨i, hi⟩ = ⟨f + i * w, min (f + i * w + w) t⟩ := by
    intro i hi
    rw [hlen] at hi
    simp [hspec, List.get_eq_getElem, hi]
  have hik : ∀ i, i < (t - f + w - 1) / w → f + i * w + w ≤ t + w ∧ f + i * w < t := by
    intro i hi
    have hile : i ≤ (t - f - 1) / w := by omega
    have := stride_le (t - f - 1) w i hile
    omega
  refine ⟨?_, hlen, hget, ?_, ?_, ?_, ?_, ?_⟩
  · intro hnil
    have := hlen
    rw [hnil] at this
    simp [hks] at this
  · rw [hspec, List.head?_eq_getElem?]
    have h0 : 0 < (t - f + w - 1) / w := by rw [hks]; exact Nat.succ_pos _
    simp [List.getElem?_map, List.getElem?_range, h0]
  · rw [hspec, List.getLast?_eq_getElem?]
    have h0 : 0 < (t - f + w - 1) / w := by rw [hks]; exact Nat.succ_pos _
    have hlast : (t - f + w - 1) / w - 1 = (t - f - 1) / w := by omega
    have hbig : t ≤ f + (t - f - 1) / w * w + w := by
      have := stride_last (t - f - 1) w hw
      omega
    simp only [List.length_map, List.length_range, List.getElem?_map]
    rw [List.getElem?_range (by omega : (t - f + w - 1) / w - 1 < (t - f + w - 1) / w)]
    simp [hlast, Nat.min_eq_right hbig]
  · rw [List.chain'_iff_get]
    intro i hi
    rw [hlen] at hi
    have hi1 : i + 1 < (buildWindows f t w).length := by omega
    have hi0 : i < (buildWindows f t w).length := by omega
    rw [hget i hi0, hget (i + 1) hi1]
    have hle : i + 1 ≤ (t - f - 1) / w := by omega
    have := stride_le (t - f - 1) w (i + 1) hle
    have harg : f + i * w + w ≤ t := by
      have : (i + 1) * w = i * w + w := by rw [Nat.succ_mul]
      omega
    simp [Nat.min_eq_left harg, Nat.succ_mul]
    omega
  · intro win hwin
    rw [hspec] at hwin
    simp only [List.mem_map, List.mem_range] at hwin
    obtain ⟨i, hi, rfl⟩ := hwin
    have := hik i hi
    refine ⟨?_, ?_⟩
    · show f + i * w < min (f + i * w + w) t
      omega
    · show min (f + i * w + w) t ≤ f + i * w + w
      exact Nat.min_le_left _ _
  · intro i hi
    rw [hlen] at hi
    have hi1 : i + 1 < (buildWindows f t w).length := by omega
    have hi0 : i < (buildWindows f t w).length := by omega
    rw [hget i hi0]
    have hle : i + 1 ≤ (t - f - 1) / w := by omega
    have := stride_le (t - f - 1) w (i + 1) hle
    have harg : f + i * w + w ≤ t := by
      have : (i + 1) * w = i * w + w := by rw [Nat.succ_mul]
      omega
    simp [Nat.min_eq_left harg]

/-- Witness for C5 at `buildWindows 0 5 2`, including the spec's concrete
example `[[0,2],[2,4],[4,5]]`. -/
theorem C5_buildWindows_witness :
    (0 : Nat) < 5 ∧ (5 : Nat) ≤ 24 ∧ ((2 : Nat) = 1 ∨ (2 : Nat) = 2) ∧
    buildWindows 0 5 2 = [⟨0, 2⟩, ⟨2, 4⟩, ⟨4, 5⟩] ∧
    (buildWindows 0 5 2 ≠ [] ∧
      (buildWindows 0 5 2).length = (5 - 0 + 2 - 1) / 2 ∧
      (∀ i (hi : i < (buildWindows 0 5 2).length),
        (buildWindows 0 5 2).get ⟨i, hi⟩ = ⟨0 + i * 2, min (0 + i * 2 + 2) 5⟩) ∧
      (buildWindows 0 5 2).head?.map TimeWindow.fromH = some 0 ∧
      (buildWindows 0 5 2).getLast?.map TimeWindow.toH = some 5 ∧
      List.Chain' (fun a b => a.toH = b.fromH) (buildWindows 0 5 2) ∧
      (∀ win ∈ buildWindows 0 5 2, win.fromH < win.toH ∧ win.toH ≤ win.fromH + 2) ∧
      (∀ i (hi : i + 1 < (buildWindows 0 5 2).length),
        ((buildWindows 0 5 2).get ⟨i, by omega⟩).toH
          = ((buildWindows 0 5 2).get ⟨i, by omega⟩).fromH + 2)) :=
  ⟨by decide, by decide, by decide, by decide, C5_buildWindows 0 5 2 (by decide) (by decide) (by decide)⟩

/-! ### C1: `chooseBestTrack` scoring and album preference -/

/-- Specification-side earliest-maximum over scored candidates, mirroring
`pickBestP` on the scored-pair representation. -/
def pickBestSc (p : ScoredCandidate → Bool) : List ScoredCandidate → Option ScoredCandidate
  | [] => none
  | x :: xs =>
    let r := pickBestSc p xs
    if p x then
      match r with
      | none => some x
      | some b => if b.score > x.score then some b else some x
    else r

lemma mem_insertDesc {z x : ScoredCandidate} {l : List ScoredCandidate} :
    z ∈ insertDesc x l ↔ z = x ∨ z ∈ l := by
  induction l with
  | nil => simp [insertDesc]
  | cons y ys ih =>
    by_cases h : y.score > x.score
    · simp only [insertDesc, if_pos h, List.mem_cons, ih]
      tauto
    · simp only [insertDesc, if_neg h, List.mem_cons]

lemma pairwise_insertDesc (x : ScoredCandidate) (l : List ScoredCandidate)
    (hl : l.Pairwise (fun a b => b.score ≤ a.score)) :
    (insertDesc x l).Pairwise (fun a b => b.score ≤ a.score) := by
  induction l with
  | nil => simp [insertDesc]
  | cons y ys ih =>
    rcases List.pairwise_cons.mp hl with ⟨hy, hys⟩
    by_cases h : y.score > x.score
    · rw [insertDesc, if_pos h]
      refine List.pairwise_cons.mpr ⟨?_, ih hys⟩
      intro z hz
      rcases mem_insertDesc.mp hz with rfl | hz
      · exact le_of_lt h
      · exact hy z hz
    · rw [insertDesc, if_neg h]
      refine List.pairwise_cons.mpr ⟨?_, hl⟩
      intro z hz
      rcases List.mem_cons.mp hz with rfl | hz
      · exact le_of_not_lt h
      · exact (hy z hz).trans (le_of_not_lt h)

lemma sortByScoreDesc_pairwise (l : List ScoredCandidate) :
    (sortByScoreDesc l).Pairwise (fun a b => b.score ≤ a.score) := by
  induction l with
  | nil => simp [sortByScoreDesc]
  | cons x xs ih => exact pairwise_insertDesc x _ ih

lemma insertDesc_ne_nil (x : ScoredCandidate) (l : List ScoredCandidate) :
    insertDesc x l ≠ [] := by
  cases l with
  | nil => simp [insertDesc]
  | cons y ys =>
    rw [insertDesc]
    split <;> simp

lemma find?_insertDesc (p : ScoredCandidate → Bool) (x : ScoredCandidate)
    (l : List ScoredCandidate) (hl : l.Pairwise (fun a b => b.score ≤ a.score)) :
    (insertDesc x l).find? p =
      if p x then
        match l.find? p with
        | none => some x
        | some b => if b.score > x.score then some b else some x
      else l.find? p := by
  induction l with
  | nil =>
    cases hp : p x <;> simp [insertDesc, List.find?, hp]
  | cons y ys ih =>
    rcases List.pairwise_cons.mp hl with ⟨hy, hys⟩
    by_cases h : y.score > x.score
    · rw [insertDesc, if_pos h]
      cases hpy : p y
      · rw [List.find?_cons_of_neg _ (by simp [hpy]), List.find?_cons_of_neg _ (by simp [hpy]),
          ih hys]
      · rw [List.find?_cons_of_pos _ hpy, List.find?_cons_of_pos _ hpy]
        cases hpx : p x <;> simp [hpx, h]
    · rw [insertDesc, if_neg h]
      cases hpx : p x
      · rw [List.find?_cons_of_neg _ (by simp [hpx])]
        simp [hpx]
      · rw [List.find?_cons_of_pos _ hpx]
        rw [if_pos rfl]
        cases hfb : (y :: ys).find? p with
        | none => rfl
        | some b =>
          have hb : b ∈ y :: ys := List.mem_of_find?_eq_some hfb
          have hble : b.score ≤ x.score := by
            rcases List.mem_cons.mp hb with rfl | hbys
            · exact le_of_not_lt h
            · exact (hy b hbys).trans (le_of_not_lt h)
          rw [show (match some b with
              | none => some x
              | some b => if b.score > x.score then some b else some x)
            = if b.score > x.score then some b else some x from rfl]
          rw [if_neg (not_lt.mpr hble)]

lemma find?_sortByScoreDesc (p : ScoredCandidate → Bool) (l : List ScoredCandidate) :
    (sortByScoreDesc l).find? p = pickBestSc p l := by
  induction l with
  | nil => rfl
  | cons x xs ih =>
    rw [sortByScoreDesc, find?_insertDesc p x _ (sortByScoreDesc_pairwise xs), ih]
    rfl

lemma find?_true_eq_head? (l : List ScoredCandidate) :
    l.find? (fun _ => true) = l.head? := by
  cases l <;> simp [List.find?]

lemma string_ne_empty_length {s : String} (h : s ≠ "") : 0 < s.length := by
  rcases s with ⟨data⟩
  cases data with
  | nil => exact absurd rfl h
  | cons c cs => simp [String.length]

lemma pickBestSc_map (q : SpotifyTrack → Bool) (g : SpotifyTrack → ℚ)
    (cs : List SpotifyTrack) :
    pickBestSc (fun c => q c.track) (cs.map (fun t => ⟨t, g t⟩)) =
      (pickBestP q g cs).map (fun t => ⟨t, g t⟩) := by
  induction cs with
  | nil => rfl
  | cons x xs ih =>
    simp only [List.map_cons, pickBestSc, pickBestP, ih]
    cases hp : q x
    · simp
    · cases hr : pickBestP q g xs with
      | none => simp
      | some b =>
        by_cases hgt : g b > g x <;> simp [hgt]

lemma pickBestP_true_isSome (g : SpotifyTrack → ℚ) (cs : List SpotifyTrack) (h : cs ≠ []) :
    (pickBestP (fun _ => true) g cs).isSome = true := by
  cases cs with
  | nil => exact absurd rfl h
  | cons x xs =>
    rw [pickBestP]
    simp only [if_pos rfl]
    cases pickBestP (fun _ => true) g xs with
    | none => rfl
    | some b => by_cases hgt : g b > g x <;> simp [hgt]

/-- `chooseBestTrack` refines the claim's argmax-plus-album-band selection,
for any scoring function presented through `trackScore`. -/
lemma chooseBestTrack_eq_chooseSpec (song : ScrapedSong) (cs : List SpotifyTrack) :
    chooseBestTrack song cs
      = chooseSpec (trackScore (normalize song.title) (normalize song.artist)) cs := by
  unfold chooseBestTrack chooseSpec
  dsimp only
  set g := trackScore (normalize song.title) (normalize song.artist) with hg
  have hhead : (sortByScoreDesc (cs.map (fun t => ⟨t, g t⟩))).head?
      = (pickBestP (fun _ => true) g cs).map (fun t => ⟨t, g t⟩) := by
    rw [← find?_true_eq_head?, find?_sortByScoreDesc]
    exact pickBestSc_map (fun _ => true) g cs
  have hfindA : (sortByScoreDesc (cs.map (fun t => ⟨t, g t⟩))).find?
        (fun c => c.track.album.album_type == "album")
      = (pickBestP (fun t => t.album.album_type == "album") g cs).map (fun t => ⟨t, g t⟩) := by
    rw [find?_sortByScoreDesc]
    exact pickBestSc_map (fun t => t.album.album_type == "album") g cs
  cases hP : pickBestP (fun _ => true) g cs with
  | none =>
    cases hcs : cs with
    | nil => rfl
    | cons y ys =>
      rw [hcs] at hP
      have := pickBestP_true_isSome g (y :: ys) (by simp)
      rw [hP] at this
      simp at this
  | some bt =>
    rw [hP] at hhead
    rcases hsort : sortByScoreDesc (cs.map (fun t => ⟨t, g t⟩)) with _ | ⟨best, rest⟩
    · rw [hsort] at hhead
      simp at hhead
    · rw [hsort] at hhead hfindA
      have hbest : best = ⟨bt, g bt⟩ := by simpa using hhead
      subst hbest
      cases hA : pickBestP (fun t => t.album.album_type == "album") g cs with
      | none =>
        rw [hA] at hfindA
        simp only [Option.map] at hfindA
        rw [hfindA]
      | some ab =>
        rw [hA] at hfindA
        simp only [Option.map] at hfindA
        rw [hfindA]

/-- The scoring formula of the source equals the amended claim formula
(artist bonus restricted to non-empty normalized artist names). -/
lemma trackScore_eq_amended (song : ScrapedSong) (t : SpotifyTrack) :
    trackScore (normalize song.title) (normalize song.artist) t = amendedTrackScore song t := by
  unfold trackScore amendedTrackScore
  have hart : ((normalize song.artist ≠ "" ∧
        ((t.artists.map (fun a => normalize a.name)).filter (fun a => a.length > 0)).any
          (fun artist => artist = normalize song.artist
            || strContains artist (normalize song.artist)
            || strContains (normalize song.artist) artist)) ↔
      (normalize song.artist ≠ "" ∧ t.artists.any (fun a =>
        normalize a.name ≠ "" ∧ (normalize a.name = normalize song.artist
          || strContains (normalize a.name) (normalize song.artist)
          || strContains (normalize song.artist) (normalize a.name))))) := by
    apply and_congr_right
    intro _
    simp only [List.any_eq_true, List.mem_filter, List.mem_map, decide_eq_true_eq]
    constructor
    · rintro ⟨a, ⟨⟨x, hx, rfl⟩, hlen⟩, hq⟩
      refine ⟨x, hx, ?_, hq⟩
      intro hnil
      rw [hnil] at hlen
      simp at hlen
    · rintro ⟨x, hx, hne, hq⟩
      refine ⟨normalize x.name, ⟨⟨x, hx, rfl⟩, ?_⟩, hq⟩
      simpa using string_ne_empty_length hne
  have halbum : ∀ x y z : ℚ,
      (if t.album.album_type = "album" then x else 0)
        + (if t.album.album_type = "single" then y else 0) + z
      = (if t.album.album_type = "album" then x
          else if t.album.album_type = "single" then y else 0) + z := by
    intro x y z
    by_cases ha : t.album.album_type = "album"
    · have hs : ¬(t.album.album_type = "single") := by rw [ha]; decide
      rw [if_pos ha, if_pos ha, if_neg hs, add_zero]
    · rw [if_neg ha, if_neg ha, zero_add]
  dsimp only
  rw [if_congr hart rfl rfl]
  by_cases ha : t.album.album_type = "album"
  · have hs : ¬(t.album.album_type = "single") := by simp [ha]
    simp [ha, hs] <;> ring
  · by_cases hs : t.album.album_type = "single" <;> simp [ha, hs] <;> ring

lemma chooseSpec_isSome (g : SpotifyTrack → ℚ) (cs : List SpotifyTrack) (h : cs ≠ []) :
    (chooseSpec g cs).isSome = true := by
  unfold chooseSpec
  cases hP : pickBestP (fun _ => true) g cs with
  | none =>
    have := pickBestP_true_isSome g cs h
    rw [hP] at this
    simp at this
  | some bt =>
    cases hA : pickBestP (fun t => t.album.album_type == "album") g cs with
    | none => simp
    | some ab =>
      dsimp only
      split <;> rfl

/-- C1 counterexample input: the second candidate's only artist normalizes
to the empty string, so the claim's literal artist rule (the empty name is
contained in the expected artist) awards it +100, while the source filters
empty normalized artist names out. -/
def cexSong : ScrapedSong :=
  { playedAt := "", rawLabel := "", artist := "abba", title := "x", sourceUrl := "" }

def cexTrackA : SpotifyTrack :=
  { id := "a", uri := "spotify:track:a", name := "x", artists := [{ name := "abba" }],
    popularity := 0, album := { album_type := "compilation", name := "n" } }

def cexTrackB : SpotifyTrack :=
  { id := "b", uri := "spotify:track:b", name := "x", artists := [{ name := "?!" }],
    popularity := 15, album := { album_type := "compilation", name := "n" } }

lemma cex_scoreA_code :
    trackScore (normalize cexSong.title) (normalize cexSong.artist) cexTrackA = 220 := by
  have h : trackScore (normalize cexSong.title) (normalize cexSong.artist) cexTrackA
      = 120 + 100 + 0 + 0 + (min ((0 : Nat) : ℚ) 100) / 15 := rfl
  rw [h]
  norm_num

lemma cex_scoreB_code :
    trackScore (normalize cexSong.title) (normalize cexSong.artist) cexTrackB = 121 := by
  have h : trackScore (normalize cexSong.title) (normalize cexSong.artist) cexTrackB
      = 120 + 0 + 0 + 0 + (min ((15 : Nat) : ℚ) 100) / 15 := rfl
  rw [h, min_eq_left (by norm_num : ((15 : Nat) : ℚ) ≤ 100)]
  norm_num

lemma cex_scoreA_claim : claimTrackScore cexSong cexTrackA = 220 := by
  have h : claimTrackScore cexSong cexTrackA
      = 120 + 100 + 0 + (min ((0 : Nat) : ℚ) 100) / 15 := rfl
  rw [h]
  norm_num

lemma cex_scoreB_claim : claimTrackScore cexSong cexTrackB = 221 := by
  have h : claimTrackScore cexSong cexTrackB
      = 120 + 100 + 0 + (min ((15 : Nat) : ℚ) 100) / 15 := rfl
  rw [h, min_eq_left (by norm_num : ((15 : Nat) : ℚ) ≤ 100)]
  norm_num

lemma cex_code_choice :
    chooseSpec (trackScore (normalize cexSong.title) (normalize cexSong.artist))
      [cexTrackA, cexTrackB] = some cexTrackA := by
  have hBA : ¬(trackScore (normalize cexSong.title) (normalize cexSong.artist) cexTrackB
      > trackScore (normalize cexSong.title) (normalize cexSong.artist) cexTrackA) := by
    rw [cex_scoreA_code, cex_scoreB_code]
    norm_num
  have hPt : pickBestP (fun _ => true)
      (trackScore (normalize cexSong.title) (normalize cexSong.artist))
      [cexTrackA, cexTrackB] = some cexTrackA := by
    simp [pickBestP, hBA]
  have hPa : pickBestP (fun t => t.album.album_type == "album")
      (trackScore (normalize cexSong.title) (normalize cexSong.artist))
      [cexTrackA, cexTrackB] = none := by
    simp [pickBestP, cexTrackA, cexTrackB]
  unfold chooseSpec
  rw [hPt, hPa]

lemma cex_claim_choice :
    chooseSpec (claimTrackScore cexSong) [cexTrackA, cexTrackB] = some cexTrackB := by
  have hBA : claimTrackScore cexSong cexTrackB > claimTrackScore cexSong cexTrackA := by
    rw [cex_scoreA_claim, cex_scoreB_claim]
    norm_num
  have hPt : pickBestP (fun _ => true) (claimTrackScore cexSong)
      [cexTrackA, cexTrackB] = some cexTrackB := by
    simp [pickBestP, hBA]
  have hPa : pickBestP (fun t => t.album.album_type == "album") (claimTrackScore cexSong)
      [cexTrackA, cexTrackB] = none := by
    simp [pickBestP, cexTrackA, cexTrackB]
  unfold chooseSpec
  rw [hPt, hPa]

/-- C1 counterexample: on this input the source picks the first candidate
(score 220 vs 121 — no artist bonus for an empty normalized artist name),
while the claim's literal scoring would pick the second (220 vs 221, because
the empty normalized name is contained in the expected artist). -/
theorem C1_chooseBestTrack_cex :
    chooseBestTrack cexSong [cexTrackA, cexTrackB]
      ≠ chooseSpec (claimTrackScore cexSong) [cexTrackA, cexTrackB] := by
  rw [chooseBestTrack_eq_chooseSpec, cex_code_choice, cex_claim_choice]
  intro h
  injection h with h
  exact absurd h (by decide)

/-- C1 (amended): for every song and non-empty candidate list,
`chooseBestTrack` scores candidates exactly as the claim says — except that
the +100 artist bonus only considers candidate artists whose *non-empty*
normalized name equals, contains, or is contained by the expected artist —
and returns the highest-scoring candidate (earliest on ties), with the
album-within-12-points preference over a top-scoring single. -/
theorem C1_chooseBestTrack_amended (song : ScrapedSong) (cs : List SpotifyTrack)
    (h : cs ≠ []) :
    chooseBestTrack song cs = chooseSpec (amendedTrackScore song) cs ∧
    (chooseBestTrack song cs).isSome = true := by
  have hsc : trackScore (normalize song.title) (normalize song.artist)
      = amendedTrackScore song := funext fun t => trackScore_eq_amended song t
  constructor
  · rw [chooseBestTrack_eq_chooseSpec, hsc]
  · rw [chooseBestTrack_eq_chooseSpec]
    exact chooseSpec_isSome _ cs h

/-- Witness for the amended C1 on a concrete single-vs-album pair where the
album wins within the 12-point band. -/
theorem C1_chooseBestTrack_amended_witness :
    ([cexTrackA, cexTrackB] : List SpotifyTrack) ≠ [] ∧
    (chooseBestTrack cexSong [cexTrackA, cexTrackB]
        = chooseSpec (amendedTrackScore cexSong) [cexTrackA, cexTrackB] ∧
      (chooseBestTrack cexSong [cexTrackA, cexTrackB]).isSome = true) :=
  ⟨by decide, C1_chooseBestTrack_amended cexSong [cexTrackA, cexTrackB] (by decide)⟩

/-! ### Orchestrator infrastructure: association-list and marking lemmas -/

lemma aget_aset {β : Type} (l : List (String × β)) (k k' : String) (v : β) :
    aget (aset l k v) k' = if k = k' then some v else aget l k' := by
  induction l with
  | nil =>
    by_cases h : k = k' <;> simp [aset, aget, h]
  | cons p t ih =>
    obtain ⟨k0, v0⟩ := p
    by_cases h0 : k0 = k
    · subst h0
      by_cases h : k0 = k' <;> simp [aset, aget, h]
    · by_cases h : k0 = k'
      · subst h
        have hkk : ¬(k = k0) := fun heq => h0 heq.symm
        simp [aset, aget, h0, hkk]
      · simp [aset, aget, h0, h, ih]

/-- Full characterization of a `markWindowProcessed` write against a
subsequent `isWindowAlreadyProcessed` lookup: the marked triple reads
`true`, every other triple is unchanged. -/
lemma mark_isAlready (s : State) (st0 d0 k0 st d k : String) :
    isWindowAlreadyProcessed (markWindowProcessed s st0 d0 k0) st d k =
      if st0 = st ∧ d0 = d ∧ k0 = k then true
      else isWindowAlreadyProcessed s st d k := by
  unfold markWindowProcessed isWindowAlreadyProcessed
  simp only [aget_aset]
  by_cases hst : st0 = st
  · subst hst
    simp only [if_pos rfl]
    by_cases hd : d0 = d
    · subst hd
      simp only [if_pos rfl]
      by_cases hk : k0 = k
      · subst hk
        simp [aget_aset]
      · simp only [aget_aset, if_neg hk, and_true, true_and]
        cases h1 : aget s.scrapedWindows st0 with
        | none => simp [aget_aset, aget, hk]
        | some l1 =>
          cases h2 : aget l1 d0 with
          | none => simp [aget_aset, aget, hk, h2]
          | some l2 => simp [aget_aset, aget, hk, h2]
    · have hcond : ¬(d0 = d ∧ k0 = k) := fun hh => hd hh.1
      simp only [true_and, if_neg hd, if_neg hcond]
      cases h1 : aget s.scrapedWindows st0 with
      | none => simp [aget_aset, if_neg hd, aget]
      | some l1 => simp [aget_aset, if_neg hd]
  · have hcond : ¬(st0 = st ∧ d0 = d ∧ k0 = k) := fun hh => hst hh.1
    simp [if_neg hst, if_neg hcond]

lemma mark_isAlready_self (s : State) (st d k : String) :
    isWindowAlreadyProcessed (markWindowProcessed s st d k) st d k = true := by
  rw [mark_isAlready]
  simp

/-! ### Song-step characterization -/

def songKeyOf (song : ScrapedSong) : String :=
  buildSongKey song.artist song.title

def matchedKeyOf (t : SpotifyTrack) : String :=
  buildSongKey (joinSpace (t.artists.map SpotifyArtist.name)) t.name

inductive SongOutcome
  | dup
  | alreadyKey
  | unmatched
  | alreadyId (t : SpotifyTrack)
  | accepted (t : SpotifyTrack)
deriving DecidableEq, Repr

/-- The branch of the per-song pipeline taken for a song, as a function of
the run-seen set, the playlist-index key set and id set. -/
def classifySong (search : ScrapedSong → List SpotifyTrack)
    (runSeen songKeys trackIds : List String) (song : ScrapedSong) : SongOutcome :=
  if songKeyOf song ∈ runSeen then .dup
  else if songKeyOf song ∈ songKeys then .alreadyKey
  else
    match findTrackForSong search song with
    | none => .unmatched
    | some t => if t.id ∈ trackIds then .alreadyId t else .accepted t

def bumpDup (s : SyncStats) : SyncStats :=
  { s with songsDuplicateSkipped := s.songsDuplicateSkipped + 1 }

def bumpAlready (s : SyncStats) : SyncStats :=
  { s with songsAlreadyInPlaylistSkipped := s.songsAlreadyInPlaylistSkipped + 1 }

def bumpUnmatched (s : SyncStats) : SyncStats :=
  { s with songsUnmatched := s.songsUnmatched + 1 }

def bumpMatched (s : SyncStats) : SyncStats :=
  { s with songsMatched := s.songsMatched + 1 }

/-- `processSong` in terms of the branch classification. -/
lemma processSong_eq (search : ScrapedSong → List SpotifyTrack) (ls : LoopState)
    (uris : List String) (song : ScrapedSong) :
    processSong search ls uris song =
      match classifySong search ls.runSeen ls.songKeys ls.trackIds song with
      | .dup => ({ ls with stats := bumpDup ls.stats }, uris)
      | .alreadyKey =>
        ({ ls with runSeen := setAdd ls.runSeen (songKeyOf song),
                   stats := bumpAlready ls.stats }, uris)
      | .unmatched =>
        ({ ls with runSeen := setAdd ls.runSeen (songKeyOf song),
                   stats := bumpUnmatched ls.stats }, uris)
      | .alreadyId t =>
        ({ ls with runSeen := setAdd ls.runSeen (songKeyOf song),
                   songKeys := setAdd (setAdd ls.songKeys (songKeyOf song)) (matchedKeyOf t),
                   stats := bumpAlready ls.stats }, uris)
      | .accepted t =>
        ({ ls with runSeen := setAdd ls.runSeen (songKeyOf song),
                   trackIds := setAdd ls.trackIds t.id,
                   songKeys := setAdd (setAdd ls.songKeys (songKeyOf song)) (matchedKeyOf t),
                   stats := bumpMatched ls.stats }, uris ++ [t.uri]) := by
  unfold processSong classifySong songKeyOf matchedKeyOf
  unfold bumpDup bumpAlready bumpUnmatched bumpMatched
  by_cases h1 : buildSongKey song.artist song.title ∈ ls.runSeen
  · simp [h1]
  · by_cases h2 : buildSongKey song.artist song.title ∈ ls.songKeys
    · simp [h1, h2]
    · cases hft : findTrackForSong search song with
      | none => simp [h1, h2, hft]
      | some t =>
        by_cases h3 : t.id ∈ ls.trackIds <;> simp [h1, h2, hft, h3]

lemma setAdd_subset (l : List String) (k : String) : l ⊆ setAdd l k := by
  unfold setAdd
  split
  · exact fun a ha => ha
  · exact fun a ha => List.mem_append_left _ ha

lemma mem_setAdd_self (l : List String) (k : String) : k ∈ setAdd l k := by
  unfold setAdd
  split
  · assumption
  · exact List.mem_append_right _ (by simp)

/-! Frame lemmas for the song loop: the per-song pipeline never touches the
persisted state or the window-level counters, and only grows the run-seen
and index sets. -/

lemma processSong_frame (search : ScrapedSong → List SpotifyTrack) (ls : LoopState)
    (uris : List String) (song : ScrapedSong) :
    (processSong search ls uris song).1.state = ls.state ∧
    (processSong search ls uris song).1.stats.windowsPlanned = ls.stats.windowsPlanned ∧
    (processSong search ls uris song).1.stats.windowsSkippedAlreadyDone
      = ls.stats.windowsSkippedAlreadyDone ∧
    (processSong search ls uris song).1.stats.windowsSkippedFuture
      = ls.stats.windowsSkippedFuture ∧
    (processSong search ls uris song).1.stats.windowsProcessed = ls.stats.windowsProcessed ∧
    (processSong search ls uris song).1.stats.windowsNotMarkedNotInPast
      = ls.stats.windowsNotMarkedNotInPast ∧
    (processSong search ls uris song).1.stats.tracksAdded = ls.stats.tracksAdded := by
  rw [processSong_eq]
  cases classifySong search ls.runSeen ls.songKeys ls.trackIds song <;>
    simp [bumpDup, bumpAlready, bumpUnmatched, bumpMatched]

lemma processSong_mono (search : ScrapedSong → List SpotifyTrack) (ls : LoopState)
    (uris : List String) (song : ScrapedSong) :
    ls.runSeen ⊆ (processSong search ls uris song).1.runSeen ∧
    ls.trackIds ⊆ (processSong search ls uris song).1.trackIds ∧
    ls.songKeys ⊆ (processSong search ls uris song).1.songKeys := by
  rw [processSong_eq]
  cases classifySong search ls.runSeen ls.songKeys ls.trackIds song <;>
    refine ⟨?_, ?_, ?_⟩ <;>
    simp <;>
    first
      | exact setAdd_subset _ _
      | exact (setAdd_subset _ _).trans (setAdd_subset _ _)
      | exact fun a ha => ha

lemma processSong_key_seen (search : ScrapedSong → List SpotifyTrack) (ls : LoopState)
    (uris : List String) (song : ScrapedSong) :
    songKeyOf song ∈ (processSong search ls uris song).1.runSeen := by
  rw [processSong_eq]
  cases hc : classifySong search ls.runSeen ls.songKeys ls.trackIds song <;>
    simp
  · -- dup branch: the key was already in the run-seen set
    unfold classifySong at hc
    by_cases h1 : songKeyOf song ∈ ls.runSeen
    · exact h1
    · rw [if_neg h1] at hc
      by_cases h2 : songKeyOf song ∈ ls.songKeys
      · rw [if_pos h2] at hc
        cases hc
      · rw [if_neg h2] at hc
        cases hft : findTrackForSong search song with
        | none => rw [hft] at hc; cases hc
        | some t =>
          rw [hft] at hc
          by_cases h3 : t.id ∈ ls.trackIds <;> simp [h3] at hc
  all_goals exact mem_setAdd_self _ _

lemma processSong_skip_uris (search : ScrapedSong → List SpotifyTrack) (ls : LoopState)
    (uris : List String) (song : ScrapedSong)
    (h : songKeyOf song ∈ ls.runSeen ∨ songKeyOf song ∈ ls.songKeys ∨
      (∃ t, findTrackForSong search song = some t ∧ t.id ∈ ls.trackIds)) :
    (processSong search ls uris song).2 = uris := by
  rw [processSong_eq]
  unfold classifySong
  by_cases h1 : songKeyOf song ∈ ls.runSeen
  · simp [h1]
  · by_cases h2 : songKeyOf song ∈ ls.songKeys
    · simp [h1, h2]
    · rcases h with h | h | ⟨t, hft, hid⟩
      · exact absurd h h1
      · exact absurd h h2
      · simp [h1, h2, hft, hid]

lemma processSong_proposal (search : ScrapedSong → List SpotifyTrack) (ls : LoopState)
    (uris : List String) (song : ScrapedSong)
    (h : (processSong search ls uris song).2 ≠ uris) :
    ∃ t, findTrackForSong search song = some t ∧
      t.id ∈ (processSong search ls uris song).1.trackIds ∧
      (processSong search ls uris song).2 = uris ++ [t.uri] := by
  rw [processSong_eq] at h ⊢
  unfold classifySong at h ⊢
  by_cases h1 : songKeyOf song ∈ ls.runSeen
  · simp [h1] at h
  · by_cases h2 : songKeyOf song ∈ ls.songKeys
    · simp [h1, h2] at h
    · cases hft : findTrackForSong search song with
      | none => simp [h1, h2, hft] at h
      | some t =>
        by_cases h3 : t.id ∈ ls.trackIds
        · simp [h1, h2, hft, h3] at h
        · refine ⟨t, rfl, ?_, ?_⟩ <;> simp [h1, h2, hft, h3, mem_setAdd_self]

lemma processSongs_frame (search : ScrapedSong → List SpotifyTrack) :
    ∀ (songs : List ScrapedSong) (ls : LoopState) (uris : List String),
    (processSongs search songs ls uris).1.state = ls.state ∧
    (processSongs search songs ls uris).1.stats.windowsPlanned = ls.stats.windowsPlanned ∧
    (processSongs search songs ls uris).1.stats.windowsSkippedAlreadyDone
      = ls.stats.windowsSkippedAlreadyDone ∧
    (processSongs search songs ls uris).1.stats.windowsSkippedFuture
      = ls.stats.windowsSkippedFuture ∧
    (processSongs search songs ls uris).1.stats.windowsProcessed
      = ls.stats.windowsProcessed ∧
    (processSongs search songs ls uris).1.stats.windowsNotMarkedNotInPast
      = ls.stats.windowsNotMarkedNotInPast ∧
    (processSongs search songs ls uris).1.stats.tracksAdded = ls.stats.tracksAdded
  | [], ls, uris => by simp [processSongs]
  | song :: rest, ls, uris => by
    have h1 := processSong_frame search ls uris song
    have h2 := processSongs_frame search rest (processSong search ls uris song).1
      (processSong search ls uris song).2
    rw [processSongs]
    exact ⟨h2.1.trans h1.1, h2.2.1.trans h1.2.1, h2.2.2.1.trans h1.2.2.1,
      h2.2.2.2.1.trans h1.2.2.2.1, h2.2.2.2.2.1.trans h1.2.2.2.2.1,
      h2.2.2.2.2.2.1.trans h1.2.2.2.2.2.1, h2.2.2.2.2.2.2.trans h1.2.2.2.2.2.2⟩

lemma processSongs_mono (search : ScrapedSong → List SpotifyTrack) :
    ∀ (songs : List ScrapedSong) (ls : LoopState) (uris : List String),
    ls.runSeen ⊆ (processSongs search songs ls uris).1.runSeen ∧
    ls.trackIds ⊆ (processSongs search songs ls uris).1.trackIds ∧
    ls.songKeys ⊆ (processSongs search songs ls uris).1.songKeys
  | [], ls, uris => by simp [processSongs]
  | song :: rest, ls, uris => by
    have h1 := processSong_mono search ls uris song
    have h2 := processSongs_mono search rest (processSong search ls uris song).1
      (processSong search ls uris song).2
    rw [processSongs]
    exact ⟨h1.1.trans h2.1, h1.2.1.trans h2.2.1, h1.2.2.trans h2.2.2⟩

lemma processSongs_append (search : ScrapedSong → List SpotifyTrack) :
    ∀ (xs ys : List ScrapedSong) (ls : LoopState) (uris : List String),
    processSongs search (xs ++ ys) ls uris =
      processSongs search ys (processSongs search xs ls uris).1
        (processSongs search xs ls uris).2
  | [], ys, ls, uris => by simp [processSongs]
  | x :: xs, ys, ls, uris => by
    rw [List.cons_append, processSongs, processSongs,
      processSongs_append search xs ys]

/-! Branch characterizations of `processWindow`. -/

lemma processWindow_future (env : SyncEnv) (cfg : SyncConfig) (i : Nat) (w : TimeWindow)
    (ls : LoopState)
    (h : isWindowFullyInFutureInWarsaw (env.nowAtStart i) cfg.targetDate w.fromH = true) :
    processWindow env cfg i w ls =
      ({ ls with stats :=
          { ls.stats with windowsSkippedFuture := ls.stats.windowsSkippedFuture + 1 } }, []) := by
  simp [processWindow, h]

lemma processWindow_already (env : SyncEnv) (cfg : SyncConfig) (i : Nat) (w : TimeWindow)
    (ls : LoopState)
    (h1 : isWindowFullyInFutureInWarsaw (env.nowAtStart i) cfg.targetDate w.fromH = false)
    (hf : cfg.force = false)
    (h2 : isWindowAlreadyProcessed ls.state cfg.stationId cfg.dateStr (windowKey w) = true) :
    processWindow env cfg i w ls =
      ({ ls with stats :=
          { ls.stats with windowsSkippedAlreadyDone :=
              ls.stats.windowsSkippedAlreadyDone + 1 } }, []) := by
  simp [processWindow, h1, hf, h2]

/-- The loop state right after `stats.songsScraped` is bumped for window `i`. -/
def scrapedLs (env : SyncEnv) (i : Nat) (ls : LoopState) : LoopState :=
  { ls with stats :=
      { ls.stats with songsScraped := ls.stats.songsScraped + (env.scrape i).length } }

/-- The song loop's result for window `i` (state and accumulated URIs). -/
def windowSongResult (env : SyncEnv) (i : Nat) (ls : LoopState) : LoopState × List String :=
  processSongs env.search (env.scrape i) (scrapedLs env i ls) []

/-- Full characterization of the scrape-and-process path of `processWindow`. -/
lemma processWindow_run_spec (env : SyncEnv) (cfg : SyncConfig) (i : Nat) (w : TimeWindow)
    (ls : LoopState)
    (h1 : isWindowFullyInFutureInWarsaw (env.nowAtStart i) cfg.targetDate w.fromH = false)
    (h2 : ¬(¬cfg.force = true ∧
      isWindowAlreadyProcessed ls.state cfg.stationId cfg.dateStr (windowKey w) = true)) :
    ((processWindow env cfg i w ls).1.state =
        if cfg.dryRun = false ∧
            isWindowFullyInPastInWarsaw (env.nowAtCommit i) cfg.targetDate w.toH = true
        then markWindowProcessed ls.state cfg.stationId cfg.dateStr (windowKey w)
        else ls.state) ∧
    ((processWindow env cfg i w ls).2 =
        (if cfg.dryRun = false ∧ (windowSongResult env i ls).2 ≠ []
          then [Effect.addTracks cfg.playlistId (windowSongResult env i ls).2.reverse 0]
          else []) ++
        (if cfg.dryRun = false ∧
            isWindowFullyInPastInWarsaw (env.nowAtCommit i) cfg.targetDate w.toH = true
          then [Effect.saveState
            (markWindowProcessed ls.state cfg.stationId cfg.dateStr (windowKey w))]
          else [])) ∧
    (processWindow env cfg i w ls).1.runSeen = (windowSongResult env i ls).1.runSeen ∧
    (processWindow env cfg i w ls).1.trackIds = (windowSongResult env i ls).1.trackIds ∧
    (processWindow env cfg i w ls).1.songKeys = (windowSongResult env i ls).1.songKeys ∧
    (processWindow env cfg i w ls).1.stats.windowsProcessed
      = ls.stats.windowsProcessed + 1 ∧
    (processWindow env cfg i w ls).1.stats.windowsSkippedAlreadyDone
      = ls.stats.windowsSkippedAlreadyDone ∧
    (processWindow env cfg i w ls).1.stats.windowsSkippedFuture
      = ls.stats.windowsSkippedFuture ∧
    (processWindow env cfg i w ls).1.stats.windowsPlanned = ls.stats.windowsPlanned ∧
    (processWindow env cfg i w ls).1.stats.windowsNotMarkedNotInPast
      = ls.stats.windowsNotMarkedNotInPast +
        (if cfg.dryRun = false ∧
            isWindowFullyInPastInWarsaw (env.nowAtCommit i) cfg.targetDate w.toH = false
          then 1 else 0) ∧
    (processWindow env cfg i w ls).1.stats.tracksAdded
      = ls.stats.tracksAdded +
        (if cfg.dryRun = false ∧ (windowSongResult env i ls).2 ≠ []
          then (windowSongResult env i ls).2.length else 0) ∧
    (processWindow env cfg i w ls).1.stats.songsScraped
      = (windowSongResult env i ls).1.stats.songsScraped ∧
    (processWindow env cfg i w ls).1.stats.songsDuplicateSkipped
      = (windowSongResult env i ls).1.stats.songsDuplicateSkipped ∧
    (processWindow env cfg i w ls).1.stats.songsAlreadyInPlaylistSkipped
      = (windowSongResult env i ls).1.stats.songsAlreadyInPlaylistSkipped ∧
    (processWindow env cfg i w ls).1.stats.songsMatched
      = (windowSongResult env i ls).1.stats.songsMatched ∧
    (processWindow env cfg i w ls).1.stats.songsUnmatched
      = (windowSongResult env i ls).1.stats.songsUnmatched := by
  have hfr := processSongs_frame env.search (env.scrape i) (scrapedLs env i ls) []
  have hwsr0 : processSongs env.search (env.scrape i) (scrapedLs env i ls) []
      = windowSongResult env i ls := rfl
  rw [hwsr0] at hfr
  have hst : (windowSongResult env i ls).1.state = ls.state := by
    rw [hfr.1]; rfl
  have hwp : (windowSongResult env i ls).1.stats.windowsProcessed
      = ls.stats.windowsProcessed := by rw [hfr.2.2.2.2.1]; rfl
  have hwsa : (windowSongResult env i ls).1.stats.windowsSkippedAlreadyDone
      = ls.stats.windowsSkippedAlreadyDone := by rw [hfr.2.2.1]; rfl
  have hwsf : (windowSongResult env i ls).1.stats.windowsSkippedFuture
      = ls.stats.windowsSkippedFuture := by rw [hfr.2.2.2.1]; rfl
  have hwpl : (windowSongResult env i ls).1.stats.windowsPlanned
      = ls.stats.windowsPlanned := by rw [hfr.2.1]; rfl
  have hwnm : (windowSongResult env i ls).1.stats.windowsNotMarkedNotInPast
      = ls.stats.windowsNotMarkedNotInPast := by rw [hfr.2.2.2.2.2.1]; rfl
  have hta : (windowSongResult env i ls).1.stats.tracksAdded
      = ls.stats.tracksAdded := by rw [hfr.2.2.2.2.2.2]; rfl
  have hwsr : processSongs env.search (env.scrape i)
      { ls with stats :=
          { ls.stats with songsScraped := ls.stats.songsScraped + (env.scrape i).length } } []
      = windowSongResult env i ls := rfl
  simp only [processWindow, h1, h2, Bool.false_eq_true, if_false, reduceIte, hwsr]
  cases hd : cfg.dryRun with
  | true => simp [hd, hst, hwp, hwsa, hwsf, hwpl, hwnm, hta]
  | false =>
    by_cases hu : (windowSongResult env i ls).2 = [] <;>
      cases hp : isWindowFullyInPastInWarsaw (env.nowAtCommit i) cfg.targetDate w.toH <;>
      simp [hd, hu, hp, hst, hwp, hwsa, hwsf, hwpl, hwnm, hta]

/-- Each window step either leaves the persisted state alone or marks
exactly its own window — and marking requires non-dry-run and a commit-time
fully-in-the-past check. -/
lemma processWindow_state_cases (env : SyncEnv) (cfg : SyncConfig) (i : Nat) (w : TimeWindow)
    (ls : LoopState) :
    (processWindow env cfg i w ls).1.state = ls.state ∨
    (cfg.dryRun = false ∧
      isWindowFullyInPastInWarsaw (env.nowAtCommit i) cfg.targetDate w.toH = true ∧
      (processWindow env cfg i w ls).1.state
        = markWindowProcessed ls.state cfg.stationId cfg.dateStr (windowKey w)) := by
  by_cases hfut : isWindowFullyInFutureInWarsaw (env.nowAtStart i) cfg.targetDate w.fromH = true
  · left
    rw [processWindow_future env cfg i w ls hfut]
  · have hfut' : isWindowFullyInFutureInWarsaw (env.nowAtStart i) cfg.targetDate w.fromH
        = false := by
      cases h : isWindowFullyInFutureInWarsaw (env.nowAtStart i) cfg.targetDate w.fromH
      · rfl
      · exact absurd h hfut
    by_cases h2 : ¬cfg.force = true ∧
        isWindowAlreadyProcessed ls.state cfg.stationId cfg.dateStr (windowKey w) = true
    · left
      have hforce : cfg.force = false := by
        cases h : cfg.force
        · rfl
        · exact absurd h h2.1
      rw [processWindow_already env cfg i w ls hfut' hforce h2.2]
    · have hspec := (processWindow_run_spec env cfg i w ls hfut' h2).1
      by_cases hcond : cfg.dryRun = false ∧
          isWindowFullyInPastInWarsaw (env.nowAtCommit i) cfg.targetDate w.toH = true
      · right
        rw [if_pos hcond] at hspec
        exact ⟨hcond.1, hcond.2, hspec⟩
      · left
        rw [if_neg hcond] at hspec
        exact hspec

lemma processWindow_state_monotone (env : SyncEnv) (cfg : SyncConfig) (i : Nat)
    (w : TimeWindow) (ls : LoopState) (st d k : String)
    (h : isWindowAlreadyProcessed ls.state st d k = true) :
    isWindowAlreadyProcessed (processWindow env cfg i w ls).1.state st d k = true := by
  rcases processWindow_state_cases env cfg i w ls with heq | ⟨_, _, heq⟩
  · rw [heq]; exact h
  · rw [heq, mark_isAlready]
    split
    · rfl
    · exact h

lemma processWindow_state_backward (env : SyncEnv) (cfg : SyncConfig) (i : Nat)
    (w : TimeWindow) (ls : LoopState) (st d k : String)
    (h : isWindowAlreadyProcessed (processWindow env cfg i w ls).1.state st d k = true) :
    isWindowAlreadyProcessed ls.state st d k = true ∨
    (cfg.dryRun = false ∧ st = cfg.stationId ∧ d = cfg.dateStr ∧ k = windowKey w ∧
      isWindowFullyInPastInWarsaw (env.nowAtCommit i) cfg.targetDate w.toH = true) := by
  rcases processWindow_state_cases env cfg i w ls with heq | ⟨hd, hp, heq⟩
  · rw [heq] at h
    exact Or.inl h
  · rw [heq, mark_isAlready] at h
    by_cases hc : cfg.stationId = st ∧ cfg.dateStr = d ∧ windowKey w = k
    · exact Or.inr ⟨hd, hc.1.symm, hc.2.1.symm, hc.2.2.symm, hp⟩
    · rw [if_neg hc] at h
      exact Or.inl h

lemma runWindows_state_monotone (env : SyncEnv) (cfg : SyncConfig) :
    ∀ (windows : List TimeWindow) (i0 : Nat) (ls : LoopState) (st d k : String),
    isWindowAlreadyProcessed ls.state st d k = true →
    isWindowAlreadyProcessed (runWindows env cfg i0 windows ls).1.state st d k = true
  | [], i0, ls, st, d, k => fun h => h
  | w :: ws, i0, ls, st, d, k => fun h => by
    rw [runWindows]
    exact runWindows_state_monotone env cfg ws (i0 + 1) _ st d k
      (processWindow_state_monotone env cfg i0 w ls st d k h)

lemma runWindows_state_backward (env : SyncEnv) (cfg : SyncConfig) :
    ∀ (windows : List TimeWindow) (i0 : Nat) (ls : LoopState) (st d k : String),
    isWindowAlreadyProcessed (runWindows env cfg i0 windows ls).1.state st d k = true →
    isWindowAlreadyProcessed ls.state st d k = true ∨
    (cfg.dryRun = false ∧ st = cfg.stationId ∧ d = cfg.dateStr ∧
      ∃ j, ∃ hj : j < windows.length, k = windowKey (windows.get ⟨j, hj⟩) ∧
        isWindowFullyInPastInWarsaw (env.nowAtCommit (i0 + j)) cfg.targetDate
          (windows.get ⟨j, hj⟩).toH = true)
  | [], i0, ls, st, d, k => fun h => Or.inl h
  | w :: ws, i0, ls, st, d, k => fun h => by
    rw [runWindows] at h
    rcases runWindows_state_backward env cfg ws (i0 + 1) _ st d k h with h' | ⟨hd, hst, hdd, j, hj, hk, hp⟩
    · rcases processWindow_state_backward env cfg i0 w ls st d k h' with h'' | ⟨hd, hst, hdd, hk, hp⟩
      · exact Or.inl h''
      · refine Or.inr ⟨hd, hst, hdd, 0, by simp, ?_, ?_⟩
        · simpa using hk
        · simpa using hp
    · refine Or.inr ⟨hd, hst, hdd, j + 1, by simpa using hj, ?_, ?_⟩
      · simpa using hk
      · have : i0 + 1 + j = i0 + (j + 1) := by omega
        rw [this] at hp
        simpa using hp

lemma processWindow_dry_state (env : SyncEnv) (cfg : SyncConfig) (i : Nat) (w : TimeWindow)
    (ls : LoopState) (hd : cfg.dryRun = true) :
    (processWindow env cfg i w ls).1.state = ls.state := by
  rcases processWindow_state_cases env cfg i w ls with heq | ⟨hd', _, _⟩
  · exact heq
  · rw [hd] at hd'
    cases hd'

lemma runWindows_dry_state (env : SyncEnv) (cfg : SyncConfig) (hd : cfg.dryRun = true) :
    ∀ (windows : List TimeWindow) (i0 : Nat) (ls : LoopState),
    (runWindows env cfg i0 windows ls).1.state = ls.state
  | [], i0, ls => rfl
  | w :: ws, i0, ls => by
    rw [runWindows]
    rw [runWindows_dry_state env cfg hd ws (i0 + 1) _,
      processWindow_dry_state env cfg i0 w ls hd]

/-! ### C3: marking discipline of `ProcessedWindowMemory` -/

/-- C3: throughout a sync run, (i) no operation removes an existing
`ProcessedWindowMemory` entry; (ii) every entry present after the run was
either present before it or was written for one of the run's own windows
with dry-run off and that window's end fully in the past (Europe/Warsaw) at
the commit-time check; (iii) a dry run never changes the memory at all;
(iv) a window that is scraped in non-dry-run mode but whose end is not yet
past is not marked — its step leaves the memory unchanged and increments
`windowsNotMarkedNotInPast` instead. -/
theorem C3_processed_window_marking (env : SyncEnv) (cfg : SyncConfig)
    (windows : List TimeWindow) (i0 : Nat) (ls : LoopState) (st d k : String)
    (i : Nat) (w : TimeWindow) :
    (isWindowAlreadyProcessed ls.state st d k = true →
      isWindowAlreadyProcessed (runWindows env cfg i0 windows ls).1.state st d k = true) ∧
    (isWindowAlreadyProcessed (runWindows env cfg i0 windows ls).1.state st d k = true →
      isWindowAlreadyProcessed ls.state st d k = true ∨
      (cfg.dryRun = false ∧ st = cfg.stationId ∧ d = cfg.dateStr ∧
        ∃ j, ∃ hj : j < windows.length, k = windowKey (windows.get ⟨j, hj⟩) ∧
          isWindowFullyInPastInWarsaw (env.nowAtCommit (i0 + j)) cfg.targetDate
            (windows.get ⟨j, hj⟩).toH = true)) ∧
    (cfg.dryRun = true → (runWindows env cfg i0 windows ls).1.state = ls.state) ∧
    (isWindowFullyInFutureInWarsaw (env.nowAtStart i) cfg.targetDate w.fromH = false →
      ¬(¬cfg.force = true ∧
        isWindowAlreadyProcessed ls.state cfg.stationId cfg.dateStr (windowKey w) = true) →
      cfg.dryRun = false →
      isWindowFullyInPastInWarsaw (env.nowAtCommit i) cfg.targetDate w.toH = false →
      (processWindow env cfg i w ls).1.state = ls.state ∧
      (processWindow env cfg i w ls).1.stats.windowsNotMarkedNotInPast
        = ls.stats.windowsNotMarkedNotInPast + 1) := by
  refine ⟨runWindows_state_monotone env cfg windows i0 ls st d k,
    runWindows_state_backward env cfg windows i0 ls st d k,
    fun hd => runWindows_dry_state env cfg hd windows i0 ls, ?_⟩
  intro h1 h2 hd hp
  have hspec := processWindow_run_spec env cfg i w ls h1 h2
  have hstate := hspec.1
  have hnm := hspec.2.2.2.2.2.2.2.2.2.1
  rw [hp] at hstate hnm
  constructor
  · rw [hstate]
    simp
  · rw [hnm]
    simp [hd]

/-! Witness scenario: one station/date, a real clock instant, a single
matching track whose release is a compilation (so disambiguation involves
no score comparison). -/

def wSong : ScrapedSong :=
  { playedAt := "00:10", rawLabel := "ABBA - Waterloo", artist := "abba",
    title := "waterloo", sourceUrl := "u" }

def wTrack : SpotifyTrack :=
  { id := "tid", uri := "spotify:track:tid", name := "Waterloo",
    artists := [{ name := "ABBA" }], popularity := 80,
    album := { album_type := "compilation", name := "W" } }

def wNow : WarsawNowParts := ⟨2026, 10, 12, 12, 0⟩

def wEnv : SyncEnv :=
  { scrape := fun _ => [wSong], search := fun _ => [wTrack],
    nowAtStart := fun _ => wNow, nowAtCommit := fun _ => wNow,
    initTrackIds := [], initSongKeys := [] }

def wDate : ParsedInputDate := ⟨12, 10, 2026⟩

def wStId : String := "40"

def wDateStr : String := "12-10-2026"

def wKeyOld : String := "9-10"

def wCfg : SyncConfig :=
  { stationId := wStId, dateStr := wDateStr, targetDate := wDate,
    playlistId := "pl", dryRun := false, force := false }

def wLs0 : LoopState := ⟨⟨1, [], []⟩, [], [], [], zeroStats⟩

def wLsPre : LoopState :=
  ⟨⟨1, [], [(wStId, [(wDateStr, [(wKeyOld, true)])])]⟩, [], [], [], zeroStats⟩

/-- Witness for C3: a pre-existing entry survives the run; a non-dry step on
a window straddling "now" (12:00–14:00 checked at 12:00) leaves the memory
unchanged and bumps `windowsNotMarkedNotInPast`; a dry run leaves the memory
untouched. -/
theorem C3_processed_window_marking_witness :
    (isWindowAlreadyProcessed wLsPre.state wStId wDateStr wKeyOld = true →
      isWindowAlreadyProcessed
        (runWindows wEnv wCfg 0 [⟨0, 1⟩] wLsPre).1.state wStId wDateStr wKeyOld = true) ∧
    isWindowAlreadyProcessed wLsPre.state wStId wDateStr wKeyOld = true ∧
    isWindowAlreadyProcessed
      (runWindows wEnv wCfg 0 [⟨0, 1⟩] wLsPre).1.state wStId wDateStr wKeyOld = true ∧
    (runWindows wEnv { wCfg with dryRun := true } 0 [⟨0, 1⟩] wLsPre).1.state
      = wLsPre.state ∧
    (processWindow wEnv wCfg 0 ⟨12, 14⟩ wLsPre).1.state = wLsPre.state ∧
    (processWindow wEnv wCfg 0 ⟨12, 14⟩ wLsPre).1.stats.windowsNotMarkedNotInPast
      = wLsPre.stats.windowsNotMarkedNotInPast + 1 := by
  have h := C3_processed_window_marking wEnv wCfg [⟨0, 1⟩] 0 wLsPre wStId wDateStr wKeyOld
    0 ⟨12, 14⟩
  have hdry := C3_processed_window_marking wEnv { wCfg with dryRun := true } [⟨0, 1⟩] 0 wLsPre
    wStId wDateStr wKeyOld 0 ⟨12, 14⟩
  have hpre : isWindowAlreadyProcessed wLsPre.state wStId wDateStr wKeyOld = true := by decide
  have hd := h.2.2.2 (by decide) (by decide) (by decide) (by decide)
  exact ⟨h.1, hpre, h.1 hpre, hdry.2.2.1 rfl, hd.1, hd.2⟩

/-! ### C8: playlist additions are reversed and inserted at position 0 -/

/-- C8: when a window is actually processed (not skipped), then in non-dry
mode with at least one accumulated track the orchestrator emits exactly one
playlist-add call, whose arguments are the accumulated URIs in reversed
accumulation order at position 0; with no accumulated tracks, or in dry-run
mode, no add call is emitted. -/
theorem C8_reversed_add_at_top (env : SyncEnv) (cfg : SyncConfig) (i : Nat) (w : TimeWindow)
    (ls : LoopState)
    (h1 : isWindowFullyInFutureInWarsaw (env.nowAtStart i) cfg.targetDate w.fromH = false)
    (h2 : ¬(¬cfg.force = true ∧
      isWindowAlreadyProcessed ls.state cfg.stationId cfg.dateStr (windowKey w) = true)) :
    (cfg.dryRun = false → (windowSongResult env i ls).2 ≠ [] →
      ∃ rest, (processWindow env cfg i w ls).2
          = Effect.addTracks cfg.playlistId (windowSongResult env i ls).2.reverse 0 :: rest ∧
        ∀ pid us pos, Effect.addTracks pid us pos ∉ rest) ∧
    ((windowSongResult env i ls).2 = [] →
      ∀ pid us pos, Effect.addTracks pid us pos ∉ (processWindow env cfg i w ls).2) ∧
    (cfg.dryRun = true →
      ∀ pid us pos, Effect.addTracks pid us pos ∉ (processWindow env cfg i w ls).2) := by
  have heff := (processWindow_run_spec env cfg i w ls h1 h2).2.1
  refine ⟨?_, ?_, ?_⟩
  · intro hd hu
    rw [heff, if_pos ⟨hd, hu⟩]
    refine ⟨_, rfl, ?_⟩
    intro pid us pos hmem
    split at hmem <;> simp at hmem
  · intro hu pid us pos hmem
    rw [heff] at hmem
    rw [if_neg (by simp [hu])] at hmem
    simp at hmem
  · intro hd pid us pos hmem
    rw [heff] at hmem
    rw [if_neg (by simp [hd]), if_neg (by simp [hd])] at hmem
    simp at hmem

/-- Witness for C8: the single scraped song matches, so the add call carries
the one accumulated URI (reversal of a singleton) at position 0. -/
theorem C8_reversed_add_at_top_witness :
    isWindowFullyInFutureInWarsaw (wEnv.nowAtStart 0) wCfg.targetDate (0 : Nat) = false ∧
    ((wCfg.dryRun = false → (windowSongResult wEnv 0 wLs0).2 ≠ [] →
      ∃ rest, (processWindow wEnv wCfg 0 ⟨0, 1⟩ wLs0).2
          = Effect.addTracks wCfg.playlistId (windowSongResult wEnv 0 wLs0).2.reverse 0 :: rest ∧
        ∀ pid us pos, Effect.addTracks pid us pos ∉ rest) ∧
    ((windowSongResult wEnv 0 wLs0).2 = [] →
      ∀ pid us pos, Effect.addTracks pid us pos ∉ (processWindow wEnv wCfg 0 ⟨0, 1⟩ wLs0).2) ∧
    (wCfg.dryRun = true →
      ∀ pid us pos, Effect.addTracks pid us pos ∉ (processWindow wEnv wCfg 0 ⟨0, 1⟩ wLs0).2)) ∧
    (windowSongResult wEnv 0 wLs0).2 = [wTrack.uri] :=
  ⟨by decide,
    C8_reversed_add_at_top wEnv wCfg 0 ⟨0, 1⟩ wLs0 (by decide) (by decide),
    by decide⟩

/-! ### C2: a completed run makes a second run skip everything ALREADY-DONE -/

def warsawMinutes (n : WarsawNowParts) : Nat := n.hour * 60 + n.minute

/-- The Warsaw wall clock at `n1` is no later than at `n2`. -/
def warsawLe (n1 n2 : WarsawNowParts) : Prop :=
  dateKey n1.year n1.month n1.day < dateKey n2.year n2.month n2.day ∨
    (dateKey n1.year n1.month n1.day = dateKey n2.year n2.month n2.day ∧
      warsawMinutes n1 ≤ warsawMinutes n2)

lemma past_then_not_future (n1 n2 : WarsawNowParts) (td : ParsedInputDate)
    (fromH toH : Nat) (hw : fromH < toH) (hle : warsawLe n1 n2)
    (hp : isWindowFullyInPastInWarsaw n1 td toH = true) :
    isWindowFullyInFutureInWarsaw n2 td fromH = false := by
  unfold isWindowFullyInPastInWarsaw at hp
  unfold isWindowFullyInFutureInWarsaw
  unfold warsawLe warsawMinutes at hle
  dsimp only at hp ⊢
  split_ifs at hp ⊢ <;> simp_all <;> omega

lemma processWindow_marks (env : SyncEnv) (cfg : SyncConfig) (i : Nat) (w : TimeWindow)
    (ls : LoopState) (hd : cfg.dryRun = false)
    (h1 : isWindowFullyInFutureInWarsaw (env.nowAtStart i) cfg.targetDate w.fromH = false)
    (hp : isWindowFullyInPastInWarsaw (env.nowAtCommit i) cfg.targetDate w.toH = true) :
    isWindowAlreadyProcessed (processWindow env cfg i w ls).1.state
      cfg.stationId cfg.dateStr (windowKey w) = true := by
  by_cases h2 : ¬cfg.force = true ∧
      isWindowAlreadyProcessed ls.state cfg.stationId cfg.dateStr (windowKey w) = true
  · have hforce : cfg.force = false := by
      cases h : cfg.force
      · rfl
      · exact absurd h h2.1
    rw [processWindow_already env cfg i w ls h1 hforce h2.2]
    exact h2.2
  · have hspec := (processWindow_run_spec env cfg i w ls h1 h2).1
    rw [if_pos ⟨hd, hp⟩] at hspec
    rw [hspec]
    exact mark_isAlready_self ls.state cfg.stationId cfg.dateStr (windowKey w)

lemma runWindows_marks_all (env : SyncEnv) (cfg : SyncConfig) (hd : cfg.dryRun = false) :
    ∀ (windows : List TimeWindow) (i0 : Nat) (ls : LoopState),
    (∀ j (hj : j < windows.length),
      isWindowFullyInFutureInWarsaw (env.nowAtStart (i0 + j)) cfg.targetDate
        (windows.get ⟨j, hj⟩).fromH = false) →
    (∀ j (hj : j < windows.length),
      isWindowFullyInPastInWarsaw (env.nowAtCommit (i0 + j)) cfg.targetDate
        (windows.get ⟨j, hj⟩).toH = true) →
    ∀ j (hj : j < windows.length),
      isWindowAlreadyProcessed (runWindows env cfg i0 windows ls).1.state
        cfg.stationId cfg.dateStr (windowKey (windows.get ⟨j, hj⟩)) = true
  | [], _, _ => fun _ _ j hj => absurd hj (by simp)
  | w :: ws, i0, ls => fun hfut hpast j hj => by
    rw [runWindows]
    cases j with
    | zero =>
      apply runWindows_state_monotone
      have hm := processWindow_marks env cfg i0 w ls hd
        (by simpa using hfut 0 (by simp)) (by simpa using hpast 0 (by simp))
      simpa using hm
    | succ j' =>
      have hj' : j' < ws.length := by simpa using hj
      have ih := runWindows_marks_all env cfg hd ws (i0 + 1) (processWindow env cfg i0 w ls).1
        (fun j hjj => by
          have h := hfut (j + 1) (by simpa using hjj)
          have hidx : i0 + 1 + j = i0 + (j + 1) := by omega
          rw [hidx]
          simpa using h)
        (fun j hjj => by
          have h := hpast (j + 1) (by simpa using hjj)
          have hidx : i0 + 1 + j = i0 + (j + 1) := by omega
          rw [hidx]
          simpa using h)
        j' hj'
      simpa using ih

lemma runWindows_all_already (env : SyncEnv) (cfg : SyncConfig) (hf : cfg.force = false) :
    ∀ (windows : List TimeWindow) (i0 : Nat) (ls : LoopState),
    (∀ j (hj : j < windows.length),
      isWindowFullyInFutureInWarsaw (env.nowAtStart (i0 + j)) cfg.targetDate
        (windows.get ⟨j, hj⟩).fromH = false) →
    (∀ j (hj : j < windows.length),
      isWindowAlreadyProcessed ls.state cfg.stationId cfg.dateStr
        (windowKey (windows.get ⟨j, hj⟩)) = true) →
    (runWindows env cfg i0 windows ls).1.state = ls.state ∧
    (runWindows env cfg i0 windows ls).2 = [] ∧
    (runWindows env cfg i0 windows ls).1.stats.windowsSkippedAlreadyDone
      = ls.stats.windowsSkippedAlreadyDone + windows.length ∧
    (runWindows env cfg i0 windows ls).1.stats.windowsProcessed
      = ls.stats.windowsProcessed ∧
    (runWindows env cfg i0 windows ls).1.stats.tracksAdded = ls.stats.tracksAdded
  | [], _, _ => fun _ _ => by
    refine ⟨rfl, rfl, ?_, rfl, rfl⟩
    simp [runWindows]
  | w :: ws, i0, ls => fun hfut halready => by
    have h0 := processWindow_already env cfg i0 w ls
      (by simpa using hfut 0 (by simp)) hf (by simpa using halready 0 (by simp))
    have ih := runWindows_all_already env cfg hf ws (i0 + 1)
      ({ ls with stats := { ls.stats with windowsSkippedAlreadyDone :=
          ls.stats.windowsSkippedAlreadyDone + 1 } })
      (fun j hjj => by
        have h := hfut (j + 1) (by simpa using hjj)
        have hidx : i0 + 1 + j = i0 + (j + 1) := by omega
        rw [hidx]
        simpa using h)
      (fun j hjj => by
        have h := halready (j + 1) (by simpa using hjj)
        simpa using h)
    rw [runWindows, h0]
    dsimp only
    refine ⟨ih.1, ?_, ?_, ih.2.2.2.1, ih.2.2.2.2⟩
    · rw [List.nil_append, ih.2.1]
    · rw [ih.2.2.1]
      simp only [List.length_cons]
      show ls.stats.windowsSkippedAlreadyDone + 1 + ws.length
        = ls.stats.windowsSkippedAlreadyDone + (ws.length + 1)
      omega

/-- C2: if a run with dry-run off completed with every planned window not in
the future at its start check and fully in the past at its commit check
(Europe/Warsaw), then — since marking makes `isWindowAlreadyProcessed` answer
true for the marked key on any state — a second run with `force = false` over
the same station, date and windows, starting from the persisted state and
with the clock not having gone backwards, finds every planned window already
recorded and skips all of them as ALREADY-DONE: its state and playlist are
untouched, `windowsSkippedAlreadyDone` grows by the window count, and
`windowsProcessed` and `tracksAdded` stay put. -/
theorem C2_second_run_already_done (env1 env2 : SyncEnv) (cfg : SyncConfig)
    (windows : List TimeWindow) (ls1 ls2 : LoopState)
    (hd : cfg.dryRun = false) (hf : cfg.force = false)
    (hw : ∀ j (hj : j < windows.length),
      (windows.get ⟨j, hj⟩).fromH < (windows.get ⟨j, hj⟩).toH)
    (hfut1 : ∀ j (hj : j < windows.length),
      isWindowFullyInFutureInWarsaw (env1.nowAtStart j) cfg.targetDate
        (windows.get ⟨j, hj⟩).fromH = false)
    (hpast1 : ∀ j (hj : j < windows.length),
      isWindowFullyInPastInWarsaw (env1.nowAtCommit j) cfg.targetDate
        (windows.get ⟨j, hj⟩).toH = true)
    (hclock : ∀ j, warsawLe (env1.nowAtCommit j) (env2.nowAtStart j))
    (hls2 : ls2.state = (runWindows env1 cfg 0 windows ls1).1.state) :
    (∀ (s : State) (st dt k : String),
      isWindowAlreadyProcessed (markWindowProcessed s st dt k) st dt k = true) ∧
    (∀ j (hj : j < windows.length),
      isWindowAlreadyProcessed ls2.state cfg.stationId cfg.dateStr
        (windowKey (windows.get ⟨j, hj⟩)) = true) ∧
    (runWindows env2 cfg 0 windows ls2).1.state = ls2.state ∧
    (runWindows env2 cfg 0 windows ls2).2 = [] ∧
    (runWindows env2 cfg 0 windows ls2).1.stats.windowsSkippedAlreadyDone
      = ls2.stats.windowsSkippedAlreadyDone + windows.length ∧
    (runWindows env2 cfg 0 windows ls2).1.stats.windowsProcessed
      = ls2.stats.windowsProcessed ∧
    (runWindows env2 cfg 0 windows ls2).1.stats.tracksAdded = ls2.stats.tracksAdded := by
  have halready : ∀ j (hj : j < windows.length),
      isWindowAlreadyProcessed ls2.state cfg.stationId cfg.dateStr
        (windowKey (windows.get ⟨j, hj⟩)) = true := by
    intro j hj
    rw [hls2]
    have h := runWindows_marks_all env1 cfg hd windows 0 ls1
      (fun j hj => by simpa using hfut1 j hj)
      (fun j hj => by simpa using hpast1 j hj) j hj
    exact h
  have hfut2 : ∀ j (hj : j < windows.length),
      isWindowFullyInFutureInWarsaw (env2.nowAtStart (0 + j)) cfg.targetDate
        (windows.get ⟨j, hj⟩).fromH = false := by
    intro j hj
    have h := past_then_not_future (env1.nowAtCommit j) (env2.nowAtStart j) cfg.targetDate
      (windows.get ⟨j, hj⟩).fromH (windows.get ⟨j, hj⟩).toH (hw j hj) (hclock j)
      (hpast1 j hj)
    simpa using h
  have hrun2 := runWindows_all_already env2 cfg hf windows 0 ls2 hfut2 halready
  exact ⟨mark_isAlready_self, halready, hrun2.1, hrun2.2.1, hrun2.2.2.1,
    hrun2.2.2.2.1, hrun2.2.2.2.2⟩

def wLs2 : LoopState :=
  ⟨(runWindows wEnv wCfg 0 [⟨0, 1⟩] wLs0).1.state, [], [], [], zeroStats⟩

/-- Witness for C2: after the concrete one-window run, a second run over the
same window skips it as ALREADY-DONE with no effects. -/
theorem C2_second_run_already_done_witness :
    isWindowAlreadyProcessed wLs2.state wStId wDateStr
      (windowKey (⟨0, 1⟩ : TimeWindow)) = true ∧
    (runWindows wEnv wCfg 0 [⟨0, 1⟩] wLs2).1.state = wLs2.state ∧
    (runWindows wEnv wCfg 0 [⟨0, 1⟩] wLs2).2 = [] ∧
    (runWindows wEnv wCfg 0 [⟨0, 1⟩] wLs2).1.stats.windowsSkippedAlreadyDone
      = wLs2.stats.windowsSkippedAlreadyDone + 1 ∧
    (runWindows wEnv wCfg 0 [⟨0, 1⟩] wLs2).1.stats.windowsProcessed
      = wLs2.stats.windowsProcessed ∧
    (runWindows wEnv wCfg 0 [⟨0, 1⟩] wLs2).1.stats.tracksAdded
      = wLs2.stats.tracksAdded := by
  have h := C2_second_run_already_done wEnv wEnv wCfg [⟨0, 1⟩] wLs0 wLs2
    rfl rfl (by decide) (by decide) (by decide)
    (fun _ => Or.inr ⟨rfl, Nat.le_refl _⟩)
    rfl
  exact ⟨by simpa using h.2.1 0 (by simp), h.2.2.1, h.2.2.2.1,
    by simpa using h.2.2.2.2.1, h.2.2.2.2.2.1, h.2.2.2.2.2.2⟩

/-! ### C4: run-seen keys and indexed ids suppress later proposals -/

lemma processWindow_sets_mono (env : SyncEnv) (cfg : SyncConfig) (i : Nat) (w : TimeWindow)
    (ls : LoopState) :
    ls.runSeen ⊆ (processWindow env cfg i w ls).1.runSeen ∧
    ls.trackIds ⊆ (processWindow env cfg i w ls).1.trackIds ∧
    ls.songKeys ⊆ (processWindow env cfg i w ls).1.songKeys := by
  by_cases hfut : isWindowFullyInFutureInWarsaw (env.nowAtStart i) cfg.targetDate w.fromH = true
  · rw [processWindow_future env cfg i w ls hfut]
    exact ⟨fun a ha => ha, fun a ha => ha, fun a ha => ha⟩
  · have hfut' : isWindowFullyInFutureInWarsaw (env.nowAtStart i) cfg.targetDate w.fromH
        = false := by
      cases h : isWindowFullyInFutureInWarsaw (env.nowAtStart i) cfg.targetDate w.fromH
      · rfl
      · exact absurd h hfut
    by_cases h2 : ¬cfg.force = true ∧
        isWindowAlreadyProcessed ls.state cfg.stationId cfg.dateStr (windowKey w) = true
    · have hforce : cfg.force = false := by
        cases h : cfg.force
        · rfl
        · exact absurd h h2.1
      rw [processWindow_already env cfg i w ls hfut' hforce h2.2]
      exact ⟨fun a ha => ha, fun a ha => ha, fun a ha => ha⟩
    · have hspec := processWindow_run_spec env cfg i w ls hfut' h2
      have hmono := processSongs_mono env.search (env.scrape i) (scrapedLs env i ls) []
      rw [hspec.2.2.1, hspec.2.2.2.1, hspec.2.2.2.2.1]
      exact ⟨hmono.1, hmono.2.1, hmono.2.2⟩

lemma runWindows_sets_mono (env : SyncEnv) (cfg : SyncConfig) :
    ∀ (windows : List TimeWindow) (i0 : Nat) (ls : LoopState),
    ls.runSeen ⊆ (runWindows env cfg i0 windows ls).1.runSeen ∧
    ls.trackIds ⊆ (runWindows env cfg i0 windows ls).1.trackIds ∧
    ls.songKeys ⊆ (runWindows env cfg i0 windows ls).1.songKeys
  | [], _, _ => ⟨fun a ha => ha, fun a ha => ha, fun a ha => ha⟩
  | w :: ws, i0, ls => by
    have h1 := processWindow_sets_mono env cfg i0 w ls
    have h2 := runWindows_sets_mono env cfg ws (i0 + 1) (processWindow env cfg i0 w ls).1
    rw [runWindows]
    exact ⟨h1.1.trans h2.1, h1.2.1.trans h2.2.1, h1.2.2.trans h2.2.2⟩

/-- After any prefix of the song loop extending past position `i`, the key of
the song at `i` sits in the run-seen set. -/
lemma processSongs_key_of_earlier (search : ScrapedSong → List SpotifyTrack)
    (songs : List ScrapedSong) (ls : LoopState) (uris : List String) (i : Nat)
    (hi : i < songs.length) (j : Nat) (hij : i < j) :
    songKeyOf (songs.get ⟨i, hi⟩)
      ∈ (processSongs search (songs.take j) ls uris).1.runSeen := by
  have hsplit : songs.take j = songs.take (i + 1) ++ (songs.take j).drop (i + 1) := by
    conv_lhs => rw [← List.take_append_drop (i + 1) (songs.take j)]
    rw [List.take_take, min_eq_left (Nat.succ_le_of_lt hij)]
  rw [hsplit, processSongs_append]
  apply (processSongs_mono search _ _ _).1
  have htake : songs.take (i + 1) = songs.take i ++ [songs.get ⟨i, hi⟩] := by
    rw [← List.concat_eq_append]
    exact (List.take_concat_get songs i hi).symm
  rw [htake, processSongs_append]
  rw [processSongs]
  rw [processSongs]
  exact processSong_key_seen search _ _ _

/-- C4: (a) a song whose key is run-seen, or whose key is in the playlist key
index, or that resolves to a track whose id is in the playlist id index, is
not proposed (the URI accumulator is unchanged); (b) processing a song
records its key in the run-seen set whatever the outcome; (c) any proposal
records the proposed track's id in the index alongside appending its URI;
(d) the run-seen, id and key sets survive any number of later windows; (e)
hence the second occurrence of a key inside one window's song list is never
proposed, regardless of how the first occurrence fared. -/
theorem C4_duplicate_suppression (search : ScrapedSong → List SpotifyTrack)
    (env : SyncEnv) (cfg : SyncConfig) (windows : List TimeWindow) (i0 : Nat)
    (songs : List ScrapedSong) (ls : LoopState) (uris : List String)
    (song : ScrapedSong) (i j : Nat) (hi : i < songs.length) (hj : j < songs.length)
    (hij : i < j)
    (hkey : songKeyOf (songs.get ⟨j, hj⟩) = songKeyOf (songs.get ⟨i, hi⟩)) :
    (songKeyOf song ∈ ls.runSeen ∨ songKeyOf song ∈ ls.songKeys ∨
      (∃ t, findTrackForSong search song = some t ∧ t.id ∈ ls.trackIds) →
      (processSong search ls uris song).2 = uris) ∧
    songKeyOf song ∈ (processSong search ls uris song).1.runSeen ∧
    ((processSong search ls uris song).2 ≠ uris →
      ∃ t, findTrackForSong search song = some t ∧
        t.id ∈ (processSong search ls uris song).1.trackIds ∧
        (processSong search ls uris song).2 = uris ++ [t.uri]) ∧
    (ls.runSeen ⊆ (runWindows env cfg i0 windows ls).1.runSeen ∧
      ls.trackIds ⊆ (runWindows env cfg i0 windows ls).1.trackIds ∧
      ls.songKeys ⊆ (runWindows env cfg i0 windows ls).1.songKeys) ∧
    (processSong search (processSongs search (songs.take j) ls uris).1
        (processSongs search (songs.take j) ls uris).2 (songs.get ⟨j, hj⟩)).2
      = (processSongs search (songs.take j) ls uris).2 := by
  refine ⟨processSong_skip_uris search ls uris song,
    processSong_key_seen search ls uris song,
    processSong_proposal search ls uris song,
    runWindows_sets_mono env cfg windows i0 ls, ?_⟩
  apply processSong_skip_uris
  left
  rw [hkey]
  exact processSongs_key_of_earlier search songs ls uris i hi j hij

def wSong2 : ScrapedSong :=
  { wSong with playedAt := "00:40", rawLabel := "ABBA — Waterloo" }

/-- Witness for C4: the same song scraped twice in one window — the second
occurrence proposes nothing. -/
theorem C4_duplicate_suppression_witness :
    (0 : Nat) < ([wSong, wSong2] : List ScrapedSong).length ∧
    songKeyOf (([wSong, wSong2] : List ScrapedSong).get ⟨1, by decide⟩)
      = songKeyOf (([wSong, wSong2] : List ScrapedSong).get ⟨0, by decide⟩) ∧
    (processSong wEnv.search
        (processSongs wEnv.search ([wSong, wSong2].take 1) wLs0 []).1
        (processSongs wEnv.search ([wSong, wSong2].take 1) wLs0 []).2
        (([wSong, wSong2] : List ScrapedSong).get ⟨1, by decide⟩)).2
      = (processSongs wEnv.search ([wSong, wSong2].take 1) wLs0 []).2 :=
  ⟨by decide, by decide,
    (C4_duplicate_suppression wEnv.search wEnv wCfg [] 0 [wSong, wSong2] wLs0 []
      wSong 0 1 (by decide) (by decide) (by decide) (by decide)).2.2.2.2⟩

/-! ### C7: dry-run — agreement between a dry run and the matching wet run -/

/-- The counters a dry run does keep in lockstep with a wet run: everything
except `tracksAdded` and `windowsNotMarkedNotInPast`, which only move in
non-dry-run mode. -/
def statsAgree (a b : SyncStats) : Prop :=
  a.windowsPlanned = b.windowsPlanned ∧
  a.windowsSkippedAlreadyDone = b.windowsSkippedAlreadyDone ∧
  a.windowsSkippedFuture = b.windowsSkippedFuture ∧
  a.windowsProcessed = b.windowsProcessed ∧
  a.songsScraped = b.songsScraped ∧
  a.songsDuplicateSkipped = b.songsDuplicateSkipped ∧
  a.songsAlreadyInPlaylistSkipped = b.songsAlreadyInPlaylistSkipped ∧
  a.songsMatched = b.songsMatched ∧
  a.songsUnmatched = b.songsUnmatched

instance (a b : SyncStats) : Decidable (statsAgree a b) := by
  unfold statsAgree
  infer_instance

/-- How a dry-run loop state tracks the matching wet-run loop state: equal
run-seen and index sets and agreeing counters. -/
def dryAgrees (lsD lsW : LoopState) : Prop :=
  lsD.runSeen = lsW.runSeen ∧ lsD.trackIds = lsW.trackIds ∧
  lsD.songKeys = lsW.songKeys ∧ statsAgree lsD.stats lsW.stats

instance (lsD lsW : LoopState) : Decidable (dryAgrees lsD lsW) := by
  unfold dryAgrees
  infer_instance

lemma statsAgree_bumpDup {a b : SyncStats} (h : statsAgree a b) :
    statsAgree (bumpDup a) (bumpDup b) := by
  unfold statsAgree at h ⊢
  unfold bumpDup
  dsimp only at h ⊢
  omega

lemma statsAgree_bumpAlready {a b : SyncStats} (h : statsAgree a b) :
    statsAgree (bumpAlready a) (bumpAlready b) := by
  unfold statsAgree at h ⊢
  unfold bumpAlready
  dsimp only at h ⊢
  omega

lemma statsAgree_bumpUnmatched {a b : SyncStats} (h : statsAgree a b) :
    statsAgree (bumpUnmatched a) (bumpUnmatched b) := by
  unfold statsAgree at h ⊢
  unfold bumpUnmatched
  dsimp only at h ⊢
  omega

lemma statsAgree_bumpMatched {a b : SyncStats} (h : statsAgree a b) :
    statsAgree (bumpMatched a) (bumpMatched b) := by
  unfold statsAgree at h ⊢
  unfold bumpMatched
  dsimp only at h ⊢
  omega

lemma processSong_congr (search : ScrapedSong → List SpotifyTrack) (lsD lsW : LoopState)
    (uris : List String) (song : ScrapedSong) (h : dryAgrees lsD lsW) :
    dryAgrees (processSong search lsD uris song).1 (processSong search lsW uris song).1 ∧
    (processSong search lsD uris song).2 = (processSong search lsW uris song).2 := by
  obtain ⟨hrs, hti, hsk, hst⟩ := h
  rw [processSong_eq, processSong_eq, hrs, hti, hsk]
  cases classifySong search lsW.runSeen lsW.songKeys lsW.trackIds song <;>
    dsimp only <;>
    refine ⟨⟨?_, ?_, ?_, ?_⟩, rfl⟩ <;>
    first
      | rfl
      | rw [hrs]
      | rw [hti]
      | rw [hsk]
      | exact statsAgree_bumpDup hst
      | exact statsAgree_bumpAlready hst
      | exact statsAgree_bumpUnmatched hst
      | exact statsAgree_bumpMatched hst

lemma processSongs_congr (search : ScrapedSong → List SpotifyTrack) :
    ∀ (songs : List ScrapedSong) (lsD lsW : LoopState) (uris : List String),
    dryAgrees lsD lsW →
    dryAgrees (processSongs search songs lsD uris).1 (processSongs search songs lsW uris).1 ∧
    (processSongs search songs lsD uris).2 = (processSongs search songs lsW uris).2
  | [], _, _, _ => fun h => ⟨h, rfl⟩
  | song :: rest, lsD, lsW, uris => fun h => by
    have h1 := processSong_congr search lsD lsW uris song h
    rw [processSongs, processSongs]
    rw [h1.2]
    exact processSongs_congr search rest _ _ _ h1.1

lemma statsAgree_scraped {a b : SyncStats} (n : Nat) (h : statsAgree a b) :
    statsAgree { a with songsScraped := a.songsScraped + n }
      { b with songsScraped := b.songsScraped + n } := by
  unfold statsAgree at h ⊢
  dsimp only at h ⊢
  omega

/-- One window of a dry run tracks one window of the matching wet run,
provided both see the same answer from the already-processed check; the dry
step leaves the state alone, and the wet step changes the answer of the
check only at this window's own key. -/
lemma processWindow_dry_wet (env : SyncEnv) (cfg : SyncConfig) (i : Nat) (w : TimeWindow)
    (lsD lsW : LoopState) (h : dryAgrees lsD lsW)
    (hchk : isWindowAlreadyProcessed lsW.state cfg.stationId cfg.dateStr (windowKey w)
      = isWindowAlreadyProcessed lsD.state cfg.stationId cfg.dateStr (windowKey w)) :
    dryAgrees (processWindow env { cfg with dryRun := true } i w lsD).1
      (processWindow env { cfg with dryRun := false } i w lsW).1 ∧
    (processWindow env { cfg with dryRun := true } i w lsD).1.state = lsD.state ∧
    (∀ k, k ≠ windowKey w →
      isWindowAlreadyProcessed
          (processWindow env { cfg with dryRun := false } i w lsW).1.state
          cfg.stationId cfg.dateStr k
        = isWindowAlreadyProcessed lsW.state cfg.stationId cfg.dateStr k) := by
  obtain ⟨hrs, hti, hsk, hst⟩ := h
  by_cases hfut : isWindowFullyInFutureInWarsaw (env.nowAtStart i) cfg.targetDate w.fromH = true
  · rw [processWindow_future env { cfg with dryRun := true } i w lsD hfut,
      processWindow_future env { cfg with dryRun := false } i w lsW hfut]
    refine ⟨⟨hrs, hti, hsk, ?_⟩, rfl, fun k _ => rfl⟩
    unfold statsAgree at hst ⊢
    dsimp only at hst ⊢
    omega
  · have hfut' : isWindowFullyInFutureInWarsaw (env.nowAtStart i) cfg.targetDate w.fromH
        = false := by
      cases hh : isWindowFullyInFutureInWarsaw (env.nowAtStart i) cfg.targetDate w.fromH
      · rfl
      · exact absurd hh hfut
    by_cases h2 : ¬cfg.force = true ∧
        isWindowAlreadyProcessed lsD.state cfg.stationId cfg.dateStr (windowKey w) = true
    · have hforce : cfg.force = false := by
        cases hh : cfg.force
        · rfl
        · exact absurd hh h2.1
      rw [processWindow_already env { cfg with dryRun := true } i w lsD hfut' hforce h2.2,
        processWindow_already env { cfg with dryRun := false } i w lsW hfut' hforce
          (hchk.trans h2.2)]
      refine ⟨⟨hrs, hti, hsk, ?_⟩, rfl, fun k _ => rfl⟩
      unfold statsAgree at hst ⊢
      dsimp only at hst ⊢
      omega
    · have h2W : ¬(¬cfg.force = true ∧
          isWindowAlreadyProcessed lsW.state cfg.stationId cfg.dateStr (windowKey w)
            = true) := by
        intro hc
        exact h2 ⟨hc.1, hchk.symm.trans hc.2⟩
      have hD := processWindow_run_spec env { cfg with dryRun := true } i w lsD hfut' h2
      have hW := processWindow_run_spec env { cfg with dryRun := false } i w lsW hfut' h2W
      have hagree : dryAgrees (scrapedLs env i lsD) (scrapedLs env i lsW) :=
        ⟨hrs, hti, hsk, statsAgree_scraped (env.scrape i).length hst⟩
      have hcg := processSongs_congr env.search (env.scrape i) (scrapedLs env i lsD)
        (scrapedLs env i lsW) [] hagree
      have hcgW : dryAgrees (windowSongResult env i lsD).1 (windowSongResult env i lsW).1 :=
        hcg.1
      obtain ⟨crs, cti, csk, cst⟩ := hcgW
      refine ⟨⟨?_, ?_, ?_, ?_⟩, ?_, ?_⟩
      · rw [hD.2.2.1, hW.2.2.1]
        exact crs
      · rw [hD.2.2.2.1, hW.2.2.2.1]
        exact cti
      · rw [hD.2.2.2.2.1, hW.2.2.2.2.1]
        exact csk
      · unfold statsAgree
        rw [hD.2.2.2.2.2.1, hW.2.2.2.2.2.1,
          hD.2.2.2.2.2.2.1, hW.2.2.2.2.2.2.1,
          hD.2.2.2.2.2.2.2.1, hW.2.2.2.2.2.2.2.1,
          hD.2.2.2.2.2.2.2.2.1, hW.2.2.2.2.2.2.2.2.1,
          hD.2.2.2.2.2.2.2.2.2.2.2.1, hW.2.2.2.2.2.2.2.2.2.2.2.1,
          hD.2.2.2.2.2.2.2.2.2.2.2.2.1, hW.2.2.2.2.2.2.2.2.2.2.2.2.1,
          hD.2.2.2.2.2.2.2.2.2.2.2.2.2.1, hW.2.2.2.2.2.2.2.2.2.2.2.2.2.1,
          hD.2.2.2.2.2.2.2.2.2.2.2.2.2.2.1, hW.2.2.2.2.2.2.2.2.2.2.2.2.2.2.1,
          hD.2.2.2.2.2.2.2.2.2.2.2.2.2.2.2, hW.2.2.2.2.2.2.2.2.2.2.2.2.2.2.2]
        unfold statsAgree at hst cst
        refine ⟨?_, ?_, ?_, ?_, ?_, ?_, ?_, ?_, ?_⟩ <;> omega
      · rw [hD.1, if_neg ?_]
        intro hc
        cases hc.1
      · intro k hk
        rw [hW.1]
        split
        · rw [mark_isAlready]
          rw [if_neg ?_]
          intro hc
          exact hk (hc.2.2.symm)
        · rfl

lemma processWindow_dry_effects (env : SyncEnv) (cfg : SyncConfig) (i : Nat)
    (w : TimeWindow) (ls : LoopState) (hd : cfg.dryRun = true) :
    (processWindow env cfg i w ls).2 = [] := by
  by_cases hfut : isWindowFullyInFutureInWarsaw (env.nowAtStart i) cfg.targetDate w.fromH = true
  · rw [processWindow_future env cfg i w ls hfut]
  · have hfut' : isWindowFullyInFutureInWarsaw (env.nowAtStart i) cfg.targetDate w.fromH
        = false := by
      cases hh : isWindowFullyInFutureInWarsaw (env.nowAtStart i) cfg.targetDate w.fromH
      · rfl
      · exact absurd hh hfut
    by_cases h2 : ¬cfg.force = true ∧
        isWindowAlreadyProcessed ls.state cfg.stationId cfg.dateStr (windowKey w) = true
    · have hforce : cfg.force = false := by
        cases hh : cfg.force
        · rfl
        · exact absurd hh h2.1
      rw [processWindow_already env cfg i w ls hfut' hforce h2.2]
    · rw [(processWindow_run_spec env cfg i w ls hfut' h2).2.1,
        if_neg (by simp [hd]), if_neg (by simp [hd])]
      rfl

lemma runWindows_dry_effects (env : SyncEnv) (cfg : SyncConfig) (hd : cfg.dryRun = true) :
    ∀ (windows : List TimeWindow) (i0 : Nat) (ls : LoopState),
    (runWindows env cfg i0 windows ls).2 = []
  | [], _, _ => rfl
  | w :: ws, i0, ls => by
    rw [runWindows]
    dsimp only
    rw [processWindow_dry_effects env cfg i0 w ls hd,
      runWindows_dry_effects env cfg hd ws (i0 + 1) _]
    rfl

lemma processWindow_dry_keeps (env : SyncEnv) (cfg : SyncConfig) (i : Nat)
    (w : TimeWindow) (ls : LoopState) (hd : cfg.dryRun = true) :
    (processWindow env cfg i w ls).1.stats.tracksAdded = ls.stats.tracksAdded ∧
    (processWindow env cfg i w ls).1.stats.windowsNotMarkedNotInPast
      = ls.stats.windowsNotMarkedNotInPast := by
  by_cases hfut : isWindowFullyInFutureInWarsaw (env.nowAtStart i) cfg.targetDate w.fromH = true
  · rw [processWindow_future env cfg i w ls hfut]
    exact ⟨rfl, rfl⟩
  · have hfut' : isWindowFullyInFutureInWarsaw (env.nowAtStart i) cfg.targetDate w.fromH
        = false := by
      cases hh : isWindowFullyInFutureInWarsaw (env.nowAtStart i) cfg.targetDate w.fromH
      · rfl
      · exact absurd hh hfut
    by_cases h2 : ¬cfg.force = true ∧
        isWindowAlreadyProcessed ls.state cfg.stationId cfg.dateStr (windowKey w) = true
    · have hforce : cfg.force = false := by
        cases hh : cfg.force
        · rfl
        · exact absurd hh h2.1
      rw [processWindow_already env cfg i w ls hfut' hforce h2.2]
      exact ⟨rfl, rfl⟩
    · have hspec := processWindow_run_spec env cfg i w ls hfut' h2
      constructor
      · rw [hspec.2.2.2.2.2.2.2.2.2.2.1, if_neg (by simp [hd])]
        exact Nat.add_zero _
      · rw [hspec.2.2.2.2.2.2.2.2.2.1, if_neg (by simp [hd])]
        exact Nat.add_zero _

lemma runWindows_dry_keeps (env : SyncEnv) (cfg : SyncConfig) (hd : cfg.dryRun = true) :
    ∀ (windows : List TimeWindow) (i0 : Nat) (ls : LoopState),
    (runWindows env cfg i0 windows ls).1.stats.tracksAdded = ls.stats.tracksAdded ∧
    (runWindows env cfg i0 windows ls).1.stats.windowsNotMarkedNotInPast
      = ls.stats.windowsNotMarkedNotInPast
  | [], _, _ => ⟨rfl, rfl⟩
  | w :: ws, i0, ls => by
    have h1 := processWindow_dry_keeps env cfg i0 w ls hd
    have h2 := runWindows_dry_keeps env cfg hd ws (i0 + 1) (processWindow env cfg i0 w ls).1
    rw [runWindows]
    exact ⟨h2.1.trans h1.1, h2.2.trans h1.2⟩

lemma statsAgree_refl (a : SyncStats) : statsAgree a a :=
  ⟨rfl, rfl, rfl, rfl, rfl, rfl, rfl, rfl, rfl⟩

/-- A whole dry run tracks the matching wet run window for window, provided
the planned windows carry pairwise distinct keys. -/
lemma runWindows_dry_wet (env : SyncEnv) (cfg : SyncConfig) :
    ∀ (windows : List TimeWindow) (i0 : Nat) (lsD lsW : LoopState),
    dryAgrees lsD lsW →
    (∀ j (hj : j < windows.length),
      isWindowAlreadyProcessed lsW.state cfg.stationId cfg.dateStr
        (windowKey (windows.get ⟨j, hj⟩))
      = isWindowAlreadyProcessed lsD.state cfg.stationId cfg.dateStr
        (windowKey (windows.get ⟨j, hj⟩))) →
    (windows.map windowKey).Nodup →
    dryAgrees (runWindows env { cfg with dryRun := true } i0 windows lsD).1
      (runWindows env { cfg with dryRun := false } i0 windows lsW).1
  | [], _, _, _ => fun h _ _ => h
  | w :: ws, i0, lsD, lsW => fun h hchk hnd => by
    have h0 := processWindow_dry_wet env cfg i0 w lsD lsW h (by simpa using hchk 0 (by simp))
    have hnd' : (windowKey w :: ws.map windowKey).Nodup := by simpa using hnd
    have hcons := List.nodup_cons.mp hnd'
    rw [runWindows, runWindows]
    apply runWindows_dry_wet env cfg ws (i0 + 1) _ _ h0.1
    · intro j hj
      have hkmem : windowKey (ws.get ⟨j, hj⟩) ∈ ws.map windowKey :=
        List.mem_map_of_mem windowKey (ws.get_mem j hj)
      have hkne : windowKey (ws.get ⟨j, hj⟩) ≠ windowKey w := by
        intro he
        exact hcons.1 (he ▸ hkmem)
      rw [h0.2.1, h0.2.2 _ hkne]
      have hc := hchk (j + 1) (by simpa using hj)
      simpa using hc
    · exact hcons.2

/-- C7 (amended): with dry-run enabled a sync run emits no playlist-add call
and no state save — in fact no external effect at all — and leaves the
persisted state untouched; it still executes the full matching pipeline over
every non-skipped window, so that (over windows with pairwise distinct keys)
its run-seen set, playlist index sets and all SyncStats counters except
`tracksAdded` and `windowsNotMarkedNotInPast` match those of the wet run
started from the same point; those two counters, however, are NOT updated as
if the additions had been performed: they keep their initial values. -/
theorem C7_dry_run_amended (env : SyncEnv) (cfg : SyncConfig) (windows : List TimeWindow)
    (i0 : Nat) (ls : LoopState) (hnd : (windows.map windowKey).Nodup) :
    (runWindows env { cfg with dryRun := true } i0 windows ls).2 = [] ∧
    (runWindows env { cfg with dryRun := true } i0 windows ls).1.state = ls.state ∧
    dryAgrees (runWindows env { cfg with dryRun := true } i0 windows ls).1
      (runWindows env { cfg with dryRun := false } i0 windows ls).1 ∧
    (runWindows env { cfg with dryRun := true } i0 windows ls).1.stats.tracksAdded
      = ls.stats.tracksAdded ∧
    (runWindows env { cfg with dryRun := true } i0 windows
        ls).1.stats.windowsNotMarkedNotInPast
      = ls.stats.windowsNotMarkedNotInPast :=
  ⟨runWindows_dry_effects env { cfg with dryRun := true } rfl windows i0 ls,
    runWindows_dry_state env { cfg with dryRun := true } rfl windows i0 ls,
    runWindows_dry_wet env cfg windows i0 ls ls ⟨rfl, rfl, rfl, statsAgree_refl _⟩
      (fun _ _ => rfl) hnd,
    (runWindows_dry_keeps env { cfg with dryRun := true } rfl windows i0 ls).1,
    (runWindows_dry_keeps env { cfg with dryRun := true } rfl windows i0 ls).2⟩

/-- Counterexample to C7 as stated: in the concrete one-window scenario the
wet run adds one track and counts `tracksAdded = 1`, while the dry run —
which the claim says updates the counters "as if it had performed the
additions" — leaves `tracksAdded` at 0 (the increment sits inside the
non-dry-run guard in the source). -/
theorem C7_dry_run_cex :
    (runWindows wEnv { wCfg with dryRun := true } 0 [⟨0, 1⟩] wLs0).2 = [] ∧
    (runWindows wEnv wCfg 0 [⟨0, 1⟩] wLs0).1.stats.tracksAdded = 1 ∧
    (runWindows wEnv { wCfg with dryRun := true } 0 [⟨0, 1⟩] wLs0).1.stats.tracksAdded
      = 0 := by
  decide

/-- Witness for the amended C7 on the concrete one-window scenario. -/
theorem C7_dry_run_amended_witness :
    (([⟨0, 1⟩] : List TimeWindow).map windowKey).Nodup ∧
    ((runWindows wEnv { wCfg with dryRun := true } 0 [⟨0, 1⟩] wLs0).2 = [] ∧
    (runWindows wEnv { wCfg with dryRun := true } 0 [⟨0, 1⟩] wLs0).1.state = wLs0.state ∧
    dryAgrees (runWindows wEnv { wCfg with dryRun := true } 0 [⟨0, 1⟩] wLs0).1
      (runWindows wEnv { wCfg with dryRun := false } 0 [⟨0, 1⟩] wLs0).1 ∧
    (runWindows wEnv { wCfg with dryRun := true } 0 [⟨0, 1⟩] wLs0).1.stats.tracksAdded
      = wLs0.stats.tracksAdded ∧
    (runWindows wEnv { wCfg with dryRun := true } 0 [⟨0, 1⟩]
        wLs0).1.stats.windowsNotMarkedNotInPast
      = wLs0.stats.windowsNotMarkedNotInPast) :=
  ⟨by decide, C7_dry_run_amended wEnv wCfg [⟨0, 1⟩] 0 wLs0 (by decide)⟩

/-! ### C10: `--playlist` writes the mapping and saves state up front -/

/-- C10: when the sync command receives a (truthy) `--playlist` argument and
passes its range validations, the station-to-playlist mapping is written
into state and that state is saved as the very first external effect —
before any window-loop effect, and for every value of `--dry-run` (the
statement never constrains `args.dryRun`); the saved state carries the new
mapping while its `ProcessedWindowMemory` portion is exactly the loaded
one. -/
theorem C10_playlist_arg_saves_state (env : SyncEnv) (args : SyncArgs) (state0 : State)
    (p : String) (hp : args.playlist = some p) (hpne : p ≠ "")
    (hnorm : normalizePlaylistId p ≠ "")
    (hrange : ¬(args.timeFrom > 23 ∨ args.timeTo < 1 ∨ args.timeTo > 24 ∨
      args.timeFrom ≥ args.timeTo))
    (hwin : ¬(args.windowHours < 1 ∨ args.windowHours > 2)) :
    runSyncCommand env args state0 =
      .ok ((runWindows env
          ⟨args.stationId, args.dateStr, args.targetDate, normalizePlaylistId p,
            args.dryRun, args.force⟩ 0
          (buildWindows args.timeFrom args.timeTo args.windowHours)
          ⟨{ state0 with stationPlaylists := aset state0.stationPlaylists args.stationId (normalizePlaylistId p) },
            [], env.initTrackIds, env.initSongKeys,
            { zeroStats with windowsPlanned :=
                (buildWindows args.timeFrom args.timeTo args.windowHours).length }⟩).1,
        Effect.saveState { state0 with stationPlaylists := aset state0.stationPlaylists args.stationId (normalizePlaylistId p) } ::
          (runWindows env
            ⟨args.stationId, args.dateStr, args.targetDate, normalizePlaylistId p,
              args.dryRun, args.force⟩ 0
            (buildWindows args.timeFrom args.timeTo args.windowHours)
            ⟨{ state0 with stationPlaylists := aset state0.stationPlaylists args.stationId (normalizePlaylistId p) },
              [], env.initTrackIds, env.initSongKeys,
              { zeroStats with windowsPlanned :=
                  (buildWindows args.timeFrom args.timeTo args.windowHours).length }⟩).2) ∧
    aget (aset state0.stationPlaylists args.stationId (normalizePlaylistId p))
        args.stationId
      = some (normalizePlaylistId p) ∧
    ({ state0 with stationPlaylists := aset state0.stationPlaylists args.stationId (normalizePlaylistId p) } : State).scrapedWindows = state0.scrapedWindows := by
  refine ⟨?_, ?_, rfl⟩
  · unfold runSyncCommand
    rw [if_neg hrange, if_neg hwin, hp]
    dsimp only
    rw [if_neg hpne]
    dsimp only
    have hlook : aget
        (aset state0.stationPlaylists args.stationId (normalizePlaylistId p))
        args.stationId = some (normalizePlaylistId p) := by
      rw [aget_aset, if_pos rfl]
    rw [hlook]
    dsimp only
    rw [if_neg hnorm]
    rfl
  · rw [aget_aset, if_pos rfl]

def wPl : String := "pl"

def wArgs : SyncArgs :=
  { stationId := wStId, dateStr := wDateStr, targetDate := wDate, timeFrom := 0,
    timeTo := 1, windowHours := 1, playlist := some wPl, dryRun := true, force := false }

/-- Witness for C10: a dry-run invocation carrying `--playlist` still opens
its effect trace with the state save holding the new mapping. -/
theorem C10_playlist_arg_saves_state_witness :
    wArgs.playlist = some wPl ∧
    runSyncCommand wEnv wArgs ⟨1, [], []⟩ =
      .ok ((runWindows wEnv
          ⟨wArgs.stationId, wArgs.dateStr, wArgs.targetDate, normalizePlaylistId wPl,
            wArgs.dryRun, wArgs.force⟩ 0
          (buildWindows wArgs.timeFrom wArgs.timeTo wArgs.windowHours)
          ⟨{ (⟨1, [], []⟩ : State) with stationPlaylists := aset (⟨1, [], []⟩ : State).stationPlaylists wArgs.stationId (normalizePlaylistId wPl) },
            [], wEnv.initTrackIds, wEnv.initSongKeys,
            { zeroStats with windowsPlanned :=
                (buildWindows wArgs.timeFrom wArgs.timeTo wArgs.windowHours).length }⟩).1,
        Effect.saveState { (⟨1, [], []⟩ : State) with stationPlaylists := aset (⟨1, [], []⟩ : State).stationPlaylists wArgs.stationId (normalizePlaylistId wPl) } ::
          (runWindows wEnv
            ⟨wArgs.stationId, wArgs.dateStr, wArgs.targetDate, normalizePlaylistId wPl,
              wArgs.dryRun, wArgs.force⟩ 0
            (buildWindows wArgs.timeFrom wArgs.timeTo wArgs.windowHours)
            ⟨{ (⟨1, [], []⟩ : State) with stationPlaylists := aset (⟨1, [], []⟩ : State).stationPlaylists wArgs.stationId (normalizePlaylistId wPl) },
              [], wEnv.initTrackIds, wEnv.initSongKeys,
              { zeroStats with windowsPlanned :=
                  (buildWindows wArgs.timeFrom wArgs.timeTo wArgs.windowHours).length }⟩).2) ∧
    aget (aset (⟨1, [], []⟩ : State).stationPlaylists wArgs.stationId
        (normalizePlaylistId wPl)) wArgs.stationId
      = some (normalizePlaylistId wPl) :=
  ⟨rfl,
    (C10_playlist_arg_saves_state wEnv wArgs ⟨1, [], []⟩ wPl rfl (by decide) (by decide)
      (by decide) (by decide)).1,
    (C10_playlist_arg_saves_state wEnv wArgs ⟨1, [], []⟩ wPl rfl (by decide) (by decide)
      (by decide) (by decide)).2.1⟩

/-! ### C6: `buildSongKey` is invariant under case, diacritics, bracketed
fragments and feat/ft clauses

The variant relation is phrased after the lower-case/decompose/strip stage:
a variant's stripped form is the base's stripped form followed by a
decoration — spaces and bracket groups, optionally ending in one
`" feat…"`/`" ft…"` clause.  The base's stripped form is `CleanBase`: free
of brackets and of word-boundary occurrences of `feat`/`ft`. -/

/-- Scan for a word-boundary occurrence of the literal `w` (the `\b<w>`
part of the feat/ft patterns), threading whether the previous character was
a word character. -/
def hasWord (w : List Char) : Bool → List Char → Bool
  | _, [] => false
  | prevW, c :: rest => (!prevW && isPre w (c :: rest)) || hasWord w (isWordChar c) rest

/-- Whether the character before the current scan position is a word
character, after consuming `l` starting from state `prevW`. -/
def wordEnd (prevW : Bool) : List Char → Bool
  | [] => prevW
  | c :: rest => wordEnd (isWordChar c) rest

lemma isPre_of_short : ∀ (w s : List Char), s.length < w.length → isPre w s = false
  | [], _, h => absurd h (by simp)
  | _ :: _, [], _ => rfl
  | a :: w', b :: s', h => by
    have ih := isPre_of_short w' s' (by simpa using h)
    simp [isPre, ih]

lemma isPre_append_of_le : ∀ (w s m : List Char), w.length ≤ s.length →
    isPre w (s ++ m) = isPre w s
  | [], _, _, _ => rfl
  | a :: w', [], m, h => absurd h (by simp)
  | a :: w', b :: s', m, h => by
    have ih := isPre_append_of_le w' s' m (by simpa using h)
    simp [isPre, ih]

lemma isPre_straddle : ∀ (w s : List Char) (c : Char) (m : List Char),
    (∀ x ∈ w, isWordChar x = true) → isWordChar c = false → s.length < w.length →
    isPre w (s ++ c :: m) = false
  | [], _, _, _, _, _, h => absurd h (by simp)
  | a :: w', [], c, m, hw, hc, _ => by
    have ha : isWordChar a = true := hw a (by simp)
    have hac : (a = c) = False := by
      by_contra hne
      simp at hne
      rw [hne, hc] at ha
      cases ha
    simp [isPre, hac]
  | a :: w', b :: s', c, m, hw, hc, h => by
    have ih := isPre_straddle w' s' c m (fun x hx => hw x (by simp [hx])) hc
      (by simpa using h)
    simp [isPre, ih]

lemma isPre_append_stable (w s m : List Char) (hw : ∀ x ∈ w, isWordChar x = true)
    (hm : m = [] ∨ isWordChar (m.headD ' ') = false) :
    isPre w (s ++ m) = isPre w s := by
  by_cases hle : w.length ≤ s.length
  · exact isPre_append_of_le w s m hle
  · have hlt : s.length < w.length := by omega
    rcases hm with hm | hm
    · rw [hm, List.append_nil]
    · cases m with
      | nil => rw [List.append_nil]
      | cons c m' =>
        rw [isPre_of_short w s hlt, isPre_straddle w s c m' hw (by simpa using hm) hlt]

lemma isPre_self_append : ∀ (w r : List Char), isPre w (w ++ r) = true
  | [], _ => rfl
  | a :: w', r => by
    simp [isPre, isPre_self_append w' r]

lemma hasWord_append (w : List Char) (hw : ∀ x ∈ w, isWordChar x = true) :
    ∀ (l m : List Char) (p : Bool), (m = [] ∨ isWordChar (m.headD ' ') = false) →
    hasWord w p (l ++ m) = (hasWord w p l || hasWord w (wordEnd p l) m)
  | [], m, p, _ => by simp [hasWord, wordEnd]
  | c :: l', m, p, hm => by
    have hstable := isPre_append_stable w (c :: l') m hw hm
    have ih := hasWord_append w hw l' m (isWordChar c) hm
    simp only [List.cons_append, hasWord, wordEnd, List.append_eq]
    rw [show (c :: l') ++ m = c :: (l' ++ m) from rfl] at hstable
    rw [hstable, ih, Bool.or_assoc]

lemma hasWord_allspace (w : List Char) (a : Char) (w' : List Char) (hww : w = a :: w')
    (ha : isWordChar a = true) :
    ∀ (sp : List Char) (p : Bool), (∀ x ∈ sp, x = ' ') → hasWord w p sp = false
  | [], _, _ => rfl
  | c :: sp', p, hsp => by
    have hc : c = ' ' := hsp c (by simp)
    have hpre : isPre w (c :: sp') = false := by
      subst hww hc
      have : (a = ' ') = False := by
        by_contra hne
        simp at hne
        rw [hne] at ha
        cases ha
      simp [isPre, this]
    have ih := hasWord_allspace w a w' hww ha sp' (isWordChar c) (fun x hx => hsp x (by simp [hx]))
    simp [hasWord, hpre, ih]

lemma cutAux_id (w : List Char) :
    ∀ (l : List Char) (p : Bool), hasWord w p l = false → cutAux w p l = l
  | [], _, _ => rfl
  | c :: l', p, h => by
    have h' : (!p && isPre w (c :: l')) = false ∧ hasWord w (isWordChar c) l' = false := by
      constructor
      · cases hx : (!p && isPre w (c :: l'))
        · rfl
        · rw [hasWord, hx] at h
          simp at h
      · cases hx : hasWord w (isWordChar c) l'
        · rfl
        · rw [hasWord, hx] at h
          simp at h
    have ih := cutAux_id w l' (isWordChar c) h'.2
    rw [cutAux]
    cases hp : (!p)
    · simp only [hp, Bool.false_and]
      rw [ih]
      simp
    · have hpre : isPre w (c :: l') = false := by
        cases hi : isPre w (c :: l')
        · rfl
        · rw [hp, hi] at h'
          simp at h'
      simp only [hp, hpre, Bool.false_and, Bool.and_false, Bool.true_and]
      rw [ih]
      simp

lemma cutAux_append (w : List Char) :
    ∀ (l m : List Char) (p : Bool), hasWord w p l = false →
    (∀ x ∈ w, isWordChar x = true) → (m = [] ∨ isWordChar (m.headD ' ') = false) →
    cutAux w p (l ++ m) = l ++ cutAux w (wordEnd p l) m
  | [], m, p, _, _, _ => by simp [wordEnd]
  | c :: l', m, p, h, hw, hm => by
    have h' : (!p && isPre w (c :: l')) = false ∧ hasWord w (isWordChar c) l' = false := by
      constructor
      · cases hx : (!p && isPre w (c :: l'))
        · rfl
        · rw [hasWord, hx] at h
          simp at h
      · cases hx : hasWord w (isWordChar c) l'
        · rfl
        · rw [hasWord, hx] at h
          simp at h
    have hstable := isPre_append_stable w (c :: l') m hw hm
    rw [show (c :: l') ++ m = c :: (l' ++ m) from rfl] at hstable
    have ih := cutAux_append w l' m (isWordChar c) h'.2 hw hm
    rw [show (c :: l') ++ m = c :: (l' ++ m) from rfl, cutAux]
    simp only [wordEnd]
    cases hp : (!p)
    · simp only [hp, Bool.false_and]
      rw [ih]
      simp
    · have hpre : isPre w (c :: l') = false := by
        cases hi : isPre w (c :: l')
        · rfl
        · rw [hp, hi] at h'
          simp at h'
      simp only [hp, hstable, hpre, Bool.false_and, Bool.and_false, Bool.true_and]
      rw [ih]
      simp

lemma contains_false (l : List Char) (c : Char) (h : c ∉ l) : l.contains c = false := by
  cases hx : l.contains c
  · rfl
  · exact absurd (by simpa using hx) h

/-- The designated feat/ft clause match: one space, the word at a word
boundary, then end of input or a non-word character, with no line
terminator in sight — the scan replaces everything from the word on with a
single space. -/
lemma cutAux_designated (w : List Char) (a : Char) (w'' : List Char) (hww : w = a :: w'')
    (hwa : isWordChar a = true) (hw : ∀ x ∈ w, isWordChar x = true) (hnlw : '\n' ∉ w)
    (rest : List Char) (p : Bool)
    (hb : rest = [] ∨ isWordChar (rest.headD ' ') = false) (hnl : '\n' ∉ rest) :
    cutAux w p (' ' :: (w ++ rest)) = [' ', ' '] := by
  have hsp : isPre w (' ' :: (w ++ rest)) = false := by
    subst hww
    have : (a = ' ') = False := by
      by_contra hne
      simp at hne
      rw [hne] at hwa
      cases hwa
    simp [isPre, this]
  rw [cutAux]
  simp only [hsp, Bool.and_false, Bool.false_and]
  rw [if_neg (by simp)]
  have hwsp : isWordChar ' ' = false := by decide
  rw [hwsp]
  cases w with
  | nil => cases hww
  | cons b w' =>
    rw [List.cons_append, cutAux]
    have hcond : (!false && isPre (b :: w') ((b :: w') ++ rest)
        && afterOK (b :: w') ((b :: w') ++ rest)
        && !(((b :: w') ++ rest).contains '\n')) = true := by
      rw [show (b :: w') ++ rest = b :: (w' ++ rest) from rfl] at *
      rw [show (b :: (w' ++ rest)) = (b :: w') ++ rest from rfl, isPre_self_append]
      have hao : afterOK (b :: w') ((b :: w') ++ rest) = true := by
        unfold afterOK
        rw [List.drop_left]
        rcases hb with hb | hb
        · rw [hb]
        · cases rest with
          | nil => rfl
          | cons r0 rest' =>
            simp only [List.headD] at hb
            simp [hb]
      rw [show (b :: w') ++ rest = b :: (w' ++ rest) from rfl] at hao ⊢
      rw [hao]
      have hnc : ((b :: (w' ++ rest)).contains '\n') = false := by
        apply contains_false
        intro hmem
        rw [show b :: (w' ++ rest) = (b :: w') ++ rest from rfl] at hmem
        rcases List.mem_append.mp hmem with hmem | hmem
        · exact hnlw hmem
        · exact hnl hmem
      rw [hnc]
      rfl
    rw [show ((b :: w') ++ rest) = b :: (w' ++ rest) from rfl] at hcond
    rw [if_pos hcond]

lemma cutAux_nl (w : List Char) :
    ∀ (l : List Char) (p : Bool), '\n' ∉ l → '\n' ∉ cutAux w p l
  | [], p, _ => by
    rw [cutAux]
    simp
  | c :: l', p, h => by
    rw [cutAux]
    split
    · simp
    · intro hmem
      rcases List.mem_cons.mp hmem with he | hm
      · exact (fun hx => h (by simp [hx])) he.symm
      · exact cutAux_nl w l' (isWordChar c) (fun hx => h (by simp [hx])) hm

lemma cutAux_head (w : List Char) (rest : List Char)
    (hb : rest = [] ∨ isWordChar (rest.headD ' ') = false) :
    cutAux w true rest = [] ∨ isWordChar ((cutAux w true rest).headD ' ') = false := by
  cases rest with
  | nil => exact Or.inl rfl
  | cons c r =>
    rw [cutAux]
    simp only [Bool.not_true, Bool.false_and]
    rw [if_neg (by simp)]
    right
    simpa using hb

/-! Bracket-stage lemmas. -/

lemma splitAtClose_length (close : Char) :
    ∀ (l a r : List Char), splitAtClose close l = some (a, r) →
    a.length + 1 + r.length = l.length
  | [], _, _, h => by cases h
  | c :: rest, a, r, h => by
    rw [splitAtClose] at h
    split_ifs at h with h1 h2
    · cases h
      simp
      omega
    · cases hx : splitAtClose close rest with
      | none =>
        rw [hx] at h
        cases h
      | some pr =>
        obtain ⟨a2, r2⟩ := pr
        rw [hx] at h
        simp only [Option.some.injEq, Prod.mk.injEq] at h
        obtain ⟨ha, hr⟩ := h
        subst ha hr
        have ih := splitAtClose_length close rest a2 r2 hx
        simp only [List.length_cons]
        omega

lemma sbf_fuel_irrel : ∀ (f1 : Nat) (l : List Char) (f2 : Nat),
    l.length ≤ f1 → l.length ≤ f2 →
    stripBracketsFuel f1 l = stripBracketsFuel f2 l
  | 0, l, f2, h1, _ => by
    have hl : l = [] := List.length_eq_zero.mp (by omega)
    subst hl
    cases f2 <;> rfl
  | _ + 1, [], f2, _, _ => by cases f2 <;> rfl
  | f1 + 1, c :: rest, f2, h1, h2 => by
    obtain ⟨f2', rfl⟩ : ∃ f2', f2 = f2' + 1 :=
      ⟨f2 - 1, by simp at h2; omega⟩
    rw [stripBracketsFuel, stripBracketsFuel]
    have hr1 : rest.length ≤ f1 := by simp at h1; omega
    have hr2 : rest.length ≤ f2' := by simp at h2; omega
    split_ifs with hc1 hc2
    · cases hx : splitAtClose ')' rest with
      | none =>
        dsimp only
        rw [sbf_fuel_irrel f1 rest f2' hr1 hr2]
      | some pr =>
        obtain ⟨a, r⟩ := pr
        have hlen := splitAtClose_length ')' rest a r hx
        dsimp only
        rw [sbf_fuel_irrel f1 r f2' (by omega) (by omega)]
    · cases hx : splitAtClose ']' rest with
      | none =>
        dsimp only
        rw [sbf_fuel_irrel f1 rest f2' hr1 hr2]
      | some pr =>
        obtain ⟨a, r⟩ := pr
        have hlen := splitAtClose_length ']' rest a r hx
        dsimp only
        rw [sbf_fuel_irrel f1 r f2' (by omega) (by omega)]
    · rw [sbf_fuel_irrel f1 rest f2' hr1 hr2]

lemma stripBrackets_append_pass :
    ∀ (sb m : List Char), '(' ∉ sb → '[' ∉ sb →
    stripBrackets (sb ++ m) = sb ++ stripBrackets m
  | [], m, _, _ => rfl
  | c :: sb', m, h1, h2 => by
    have hcp : ¬(c = '(') := fun he => h1 (by simp [he])
    have hcb : ¬(c = '[') := fun he => h2 (by simp [he])
    show stripBracketsFuel ((sb' ++ m).length + 1) (c :: (sb' ++ m)) = _
    rw [stripBracketsFuel, if_neg hcp, if_neg hcb]
    rw [show stripBracketsFuel (sb' ++ m).length (sb' ++ m) = stripBrackets (sb' ++ m)
      from rfl]
    rw [stripBrackets_append_pass sb' m (fun hx => h1 (by simp [hx]))
      (fun hx => h2 (by simp [hx]))]
    rfl

lemma splitAtClose_exact (close : Char) (hcl : close ≠ '\n') :
    ∀ (inner g : List Char), (∀ c ∈ inner, c ≠ close ∧ c ≠ '\n') →
    splitAtClose close (inner ++ close :: g) = some (inner, g)
  | [], g, _ => by
    rw [List.nil_append, splitAtClose, if_neg hcl, if_pos rfl]
  | c :: inner', g, h => by
    have hc := h c (by simp)
    rw [List.cons_append, splitAtClose, if_neg hc.2, if_neg hc.1]
    rw [splitAtClose_exact close hcl inner' g (fun x hx => h x (by simp [hx]))]

lemma stripBrackets_space (l : List Char) :
    stripBrackets (' ' :: l) = ' ' :: stripBrackets l := by
  show stripBracketsFuel (l.length + 1) (' ' :: l) = _
  rw [stripBracketsFuel, if_neg (by decide), if_neg (by decide)]
  rfl

lemma stripBrackets_group (opn close : Char) (hoc : opn = '(' ∧ close = ')' ∨
      opn = '[' ∧ close = ']')
    (inner g : List Char) (h : ∀ c ∈ inner, c ≠ close ∧ c ≠ '\n') :
    stripBrackets (opn :: (inner ++ close :: g)) = ' ' :: stripBrackets g := by
  show stripBracketsFuel ((inner ++ close :: g).length + 1) (opn :: (inner ++ close :: g)) = _
  have hfuel : g.length ≤ (inner ++ close :: g).length := by simp; omega
  rcases hoc with ⟨ho, hc⟩ | ⟨ho, hc⟩ <;> subst ho hc
  · rw [stripBracketsFuel, if_pos rfl,
      splitAtClose_exact ')' (by decide) inner g h]
    dsimp only
    rw [sbf_fuel_irrel _ g g.length hfuel (Nat.le_refl _)]
    rfl
  · rw [stripBracketsFuel]
    rw [if_neg (by decide), if_pos rfl, splitAtClose_exact ']' (by decide) inner g h]
    dsimp only
    rw [sbf_fuel_irrel _ g g.length hfuel (Nat.le_refl _)]
    rfl

/-- Decorative prefix made of spaces and complete bracket groups (the
fragments the bracket stage deletes wholesale). -/
inductive SpacesGroups : List Char → Prop
  | nil : SpacesGroups []
  | space {g} : SpacesGroups g → SpacesGroups (' ' :: g)
  | paren {inner g} : (∀ c ∈ inner, c ≠ ')' ∧ c ≠ '\n') → SpacesGroups g →
      SpacesGroups ('(' :: (inner ++ ')' :: g))
  | bracket {inner g} : (∀ c ∈ inner, c ≠ ']' ∧ c ≠ '\n') → SpacesGroups g →
      SpacesGroups ('[' :: (inner ++ ']' :: g))

lemma stripBrackets_spacesGroups {g : List Char} (hg : SpacesGroups g) :
    ∀ (m : List Char), ∃ sp, (∀ c ∈ sp, c = ' ') ∧
      stripBrackets (g ++ m) = sp ++ stripBrackets m := by
  induction hg with
  | nil => exact fun m => ⟨[], by simp, rfl⟩
  | space hg' ih =>
    intro m
    obtain ⟨sp, hsp, heq⟩ := ih m
    refine ⟨' ' :: sp, by simpa using hsp, ?_⟩
    rw [List.cons_append, stripBrackets_space, heq]
    rfl
  | paren hin hg' ih =>
    intro m
    obtain ⟨sp, hsp, heq⟩ := ih m
    refine ⟨' ' :: sp, by simpa using hsp, ?_⟩
    rw [List.cons_append, List.append_assoc, List.cons_append]
    rw [stripBrackets_group '(' ')' (Or.inl ⟨rfl, rfl⟩) _ _ hin, heq]
    rfl
  | bracket hin hg' ih =>
    intro m
    obtain ⟨sp, hsp, heq⟩ := ih m
    refine ⟨' ' :: sp, by simpa using hsp, ?_⟩
    rw [List.cons_append, List.append_assoc, List.cons_append]
    rw [stripBrackets_group '[' ']' (Or.inr ⟨rfl, rfl⟩) _ _ hin, heq]
    rfl

lemma stripBrackets_pass (l : List Char) (h1 : '(' ∉ l) (h2 : '[' ∉ l) :
    stripBrackets l = l := by
  have h := stripBrackets_append_pass l [] h1 h2
  rw [List.append_nil] at h
  rw [h, show stripBrackets ([] : List Char) = [] from rfl, List.append_nil]

lemma splitAtClose_mem (close : Char) :
    ∀ (l a r : List Char), splitAtClose close l = some (a, r) → ∀ x ∈ r, x ∈ l
  | [], _, _, h => by cases h
  | c :: rest, a, r, h => by
    rw [splitAtClose] at h
    split_ifs at h with h1 h2
    · cases h
      exact fun x hx => by simp [hx]
    · cases hx : splitAtClose close rest with
      | none =>
        rw [hx] at h
        cases h
      | some pr =>
        obtain ⟨a2, r2⟩ := pr
        rw [hx] at h
        simp only [Option.some.injEq, Prod.mk.injEq] at h
        obtain ⟨ha, hr⟩ := h
        subst ha hr
        exact fun x hxm =>
          List.mem_cons_of_mem c (splitAtClose_mem close rest a2 r2 hx x hxm)

lemma sbf_nl : ∀ (fuel : Nat) (l : List Char), '\n' ∉ l →
    '\n' ∉ stripBracketsFuel fuel l
  | 0, _, _ => by
    rw [stripBracketsFuel]
    simp
  | _ + 1, [], _ => by
    rw [stripBracketsFuel]
    simp
  | fuel + 1, c :: rest, h => by
    have hrest : '\n' ∉ rest := fun hx => h (by simp [hx])
    have hc : c ≠ '\n' := fun he => h (by simp [he])
    rw [stripBracketsFuel]
    split_ifs with h1 h2
    · cases hx : splitAtClose ')' rest with
      | none =>
        dsimp only
        intro hmem
        rcases List.mem_cons.mp hmem with he | hm
        · exact hc he.symm
        · exact sbf_nl fuel rest hrest hm
      | some pr =>
        obtain ⟨a, r⟩ := pr
        dsimp only
        intro hmem
        rcases List.mem_cons.mp hmem with he | hm
        · cases he
        · exact sbf_nl fuel r
            (fun hx2 => hrest (splitAtClose_mem ')' rest a r hx _ hx2)) hm
    · cases hx : splitAtClose ']' rest with
      | none =>
        dsimp only
        intro hmem
        rcases List.mem_cons.mp hmem with he | hm
        · exact hc he.symm
        · exact sbf_nl fuel rest hrest hm
      | some pr =>
        obtain ⟨a, r⟩ := pr
        dsimp only
        intro hmem
        rcases List.mem_cons.mp hmem with he | hm
        · cases he
        · exact sbf_nl fuel r
            (fun hx2 => hrest (splitAtClose_mem ']' rest a r hx _ hx2)) hm
    · intro hmem
      rcases List.mem_cons.mp hmem with he | hm
      · exact hc he.symm
      · exact sbf_nl fuel rest hrest hm

lemma stripBrackets_headD (l : List Char)
    (h : l = [] ∨ isWordChar (l.headD ' ') = false) :
    stripBrackets l = [] ∨ isWordChar ((stripBrackets l).headD ' ') = false := by
  cases l with
  | nil => exact Or.inl rfl
  | cons c rest =>
    right
    have hc : isWordChar c = false := by simpa using h
    show isWordChar ((stripBracketsFuel (rest.length + 1) (c :: rest)).headD ' ') = false
    rw [stripBracketsFuel]
    split_ifs with h1 h2
    · cases hx : splitAtClose ')' rest with
      | none => simpa using hc
      | some pr =>
        obtain ⟨a, r⟩ := pr
        dsimp only [List.headD]
        decide
    · cases hx : splitAtClose ']' rest with
      | none => simpa using hc
      | some pr =>
        obtain ⟨a, r⟩ := pr
        dsimp only [List.headD]
        decide
    · simpa using hc

/-! Collapse/trim lemmas: a trailing run of spaces is absorbed. -/

lemma collapseSkip_spaces : ∀ (sp : List Char), (∀ c ∈ sp, c = ' ') → collapseSkip sp = []
  | [], _ => rfl
  | c :: sp', h => by
    have hc : c = ' ' := h c (by simp)
    subst hc
    rw [collapseSkip, if_neg (by decide)]
    exact collapseSkip_spaces sp' (fun x hx => h x (by simp [hx]))

lemma trimRight_collapse_spaces : ∀ (sp : List Char), (∀ c ∈ sp, c = ' ') →
    trimRight (collapse sp) = []
  | [], _ => rfl
  | c :: sp', h => by
    have hc : c = ' ' := h c (by simp)
    subst hc
    have hcs := collapseSkip_spaces sp' (fun x hx => h x (by simp [hx]))
    rw [collapse, if_neg (by decide), hcs]
    decide

lemma trimRight_congr (c : Char) {X Y : List Char} (h : trimRight X = trimRight Y) :
    trimRight (c :: X) = trimRight (c :: Y) := by
  rw [trimRight, trimRight, h]

lemma trimRight_collapse_append : ∀ (sb sp : List Char), (∀ c ∈ sp, c = ' ') →
    trimRight (collapse (sb ++ sp)) = trimRight (collapse sb) ∧
    trimRight (collapseSkip (sb ++ sp)) = trimRight (collapseSkip sb)
  | [], sp, h => by
    constructor
    · rw [List.nil_append, trimRight_collapse_spaces sp h]
      rfl
    · rw [List.nil_append, collapseSkip_spaces sp h]
      rfl
  | b :: sb', sp, h => by
    have ih := trimRight_collapse_append sb' sp h
    constructor
    · rw [List.cons_append, collapse, collapse]
      by_cases hb : isLowerAlnum b = true
      · rw [if_pos hb, if_pos hb]
        exact trimRight_congr b ih.1
      · rw [if_neg hb, if_neg hb]
        exact trimRight_congr ' ' ih.2
    · rw [List.cons_append, collapseSkip, collapseSkip]
      by_cases hb : isLowerAlnum b = true
      · rw [if_pos hb, if_pos hb]
        exact trimRight_congr b ih.1
      · rw [if_neg hb, if_neg hb]
        exact ih.2

lemma jsTrim_collapse_spaces (sb sp : List Char) (h : ∀ c ∈ sp, c = ' ') :
    jsTrim (collapse (sb ++ sp)) = jsTrim (collapse sb) := by
  unfold jsTrim
  rw [(trimRight_collapse_append sb sp h).1]

lemma wordEnd_append : ∀ (l1 l2 : List Char) (p : Bool),
    wordEnd p (l1 ++ l2) = wordEnd (wordEnd p l1) l2
  | [], _, _ => rfl
  | c :: l1', l2, p => by
    rw [List.cons_append, wordEnd, wordEnd]
    exact wordEnd_append l1' l2 (isWordChar c)

/-- The tail of the `normalize` pipeline, after the lower-case/NFKD/strip
stage. -/
def normTail (l : List Char) : List Char :=
  jsTrim (collapse (ftCut (featCut (stripBrackets l))))

lemma normalize_eq (s : String) : normalize s = ⟨normTail (stripStage s.data)⟩ := rfl

/-- The two clause words of the feat/ft patterns. -/
inductive FeatWord : List Char → Prop
  | feat : FeatWord featChars
  | ft : FeatWord ftChars

/-- An optional trailing feat/ft clause: a space, the clause word at a word
boundary, then anything without a line terminator. -/
inductive FeatTail : List Char → Prop
  | nil : FeatTail []
  | clause {w rest} : FeatWord w → (rest = [] ∨ isWordChar (rest.headD ' ') = false) →
      '\n' ∉ rest → FeatTail (' ' :: (w ++ rest))

/-- A base (already lower-cased, decomposed and mark-stripped) that carries
no bracket characters and no word-boundary occurrence of `feat` or `ft`. -/
def CleanBase (sb : List Char) : Prop :=
  hasWord featChars false sb = false ∧ hasWord ftChars false sb = false ∧
  '(' ∉ sb ∧ '[' ∉ sb

instance (sb : List Char) : Decidable (CleanBase sb) := by
  unfold CleanBase
  infer_instance

/-- A decoration: spaces and bracket groups, then an optional feat/ft
clause. -/
def Deco (e : List Char) : Prop :=
  ∃ g f, SpacesGroups g ∧ FeatTail f ∧ e = g ++ f

lemma hasWord_base_spaces (w : List Char) (a : Char) (w2 : List Char) (hww : w = a :: w2)
    (hwa : isWordChar a = true) (hword : ∀ x ∈ w, isWordChar x = true)
    (sb sp : List Char) (hsb : hasWord w false sb = false) (hsp : ∀ c ∈ sp, c = ' ') :
    hasWord w false (sb ++ sp) = false := by
  have hm : sp = [] ∨ isWordChar (sp.headD ' ') = false := by
    cases sp with
    | nil => exact Or.inl rfl
    | cons c sp' =>
      right
      have hc : c = ' ' := hsp c (by simp)
      subst hc
      rw [List.headD_cons]
      decide
  rw [hasWord_append w hword sb sp false hm, hsb,
    hasWord_allspace w a w2 hww hwa sp _ hsp]
  rfl

/-- The heart of C6: appending a decoration to a clean base does not change
the tail of the pipeline. -/
lemma normTail_deco (sb e : List Char) (hb : CleanBase sb) (hd : Deco e) :
    normTail (sb ++ e) = normTail sb := by
  obtain ⟨hfeat, hft, hpar, hbrk⟩ := hb
  obtain ⟨g, f, hg, hf, rfl⟩ := hd
  have hwordfeat : ∀ x ∈ featChars, isWordChar x = true := by decide
  have hwordft : ∀ x ∈ ftChars, isWordChar x = true := by decide
  have hrhs : jsTrim (collapse sb) = normTail sb := by
    show _ = jsTrim (collapse (cutAux ftChars false (cutAux featChars false
      (stripBrackets sb))))
    rw [stripBrackets_pass sb hpar hbrk, cutAux_id featChars sb false hfeat,
      cutAux_id ftChars sb false hft]
  obtain ⟨sp, hsp, hsg⟩ := stripBrackets_spacesGroups hg f
  have h1 : stripBrackets (sb ++ (g ++ f)) = sb ++ (sp ++ stripBrackets f) := by
    rw [stripBrackets_append_pass sb (g ++ f) hpar hbrk, hsg]
  have hb1 : hasWord featChars false (sb ++ sp) = false :=
    hasWord_base_spaces featChars 'f' ['e', 'a', 't'] rfl (by decide) hwordfeat
      sb sp hfeat hsp
  have hb2 : hasWord ftChars false (sb ++ sp) = false :=
    hasWord_base_spaces ftChars 'f' ['t'] rfl (by decide) hwordft sb sp hft hsp
  cases hf with
  | nil =>
    have h2 : stripBrackets (sb ++ (g ++ [])) = sb ++ sp := by
      rw [h1, show stripBrackets ([] : List Char) = [] from rfl, List.append_nil]
    show jsTrim (collapse (cutAux ftChars false (cutAux featChars false
      (stripBrackets (sb ++ (g ++ [])))))) = normTail sb
    rw [h2, cutAux_id featChars (sb ++ sp) false hb1,
      cutAux_id ftChars (sb ++ sp) false hb2, jsTrim_collapse_spaces sb sp hsp, hrhs]
  | @clause w rest hfw hhead hnl =>
    have hres1 : stripBrackets rest = [] ∨
        isWordChar ((stripBrackets rest).headD ' ') = false :=
      stripBrackets_headD rest hhead
    have hres2 : '\n' ∉ stripBrackets rest := sbf_nl rest.length rest hnl
    cases hfw with
    | feat =>
      have h3 : stripBrackets ((' ' :: featChars) ++ rest)
          = (' ' :: featChars) ++ stripBrackets rest :=
        stripBrackets_append_pass (' ' :: featChars) rest (by decide) (by decide)
      have h2 : stripBrackets (sb ++ (g ++ (' ' :: (featChars ++ rest))))
          = (sb ++ sp) ++ (' ' :: (featChars ++ stripBrackets rest)) := by
        rw [h1, show (' ' :: (featChars ++ rest)) = (' ' :: featChars) ++ rest from rfl, h3]
        simp [List.append_assoc]
      show jsTrim (collapse (cutAux ftChars false (cutAux featChars false
        (stripBrackets (sb ++ (g ++ (' ' :: (featChars ++ rest)))))))) = normTail sb
      rw [h2]
      rw [cutAux_append featChars (sb ++ sp) (' ' :: (featChars ++ stripBrackets rest))
        false hb1 hwordfeat (Or.inr (by rw [List.headD_cons]; decide))]
      rw [cutAux_designated featChars 'f' ['e', 'a', 't'] rfl (by decide) hwordfeat
        (by decide) (stripBrackets rest) _ hres1 hres2]
      have hsp2 : ∀ c ∈ (sp ++ [' ', ' ']), c = ' ' := by
        intro c hc
        rcases List.mem_append.mp hc with hc | hc
        · exact hsp c hc
        · simpa using hc
      have hb2' : hasWord ftChars false ((sb ++ sp) ++ [' ', ' ']) = false := by
        rw [List.append_assoc]
        exact hasWord_base_spaces ftChars 'f' ['t'] rfl (by decide) hwordft
          sb (sp ++ [' ', ' ']) hft hsp2
      rw [cutAux_id ftChars ((sb ++ sp) ++ [' ', ' ']) false hb2',
        List.append_assoc, jsTrim_collapse_spaces sb (sp ++ [' ', ' ']) hsp2, hrhs]
    | ft =>
      have h3 : stripBrackets ((' ' :: ftChars) ++ rest)
          = (' ' :: ftChars) ++ stripBrackets rest :=
        stripBrackets_append_pass (' ' :: ftChars) rest (by decide) (by decide)
      have h2 : stripBrackets (sb ++ (g ++ (' ' :: (ftChars ++ rest))))
          = ((sb ++ sp) ++ [' ', 'f', 't']) ++ stripBrackets rest := by
        rw [h1, show (' ' :: (ftChars ++ rest)) = (' ' :: ftChars) ++ rest from rfl, h3]
        simp [List.append_assoc, ftChars]
      show jsTrim (collapse (cutAux ftChars false (cutAux featChars false
        (stripBrackets (sb ++ (g ++ (' ' :: (ftChars ++ rest)))))))) = normTail sb
      rw [h2]
      have hbL : hasWord featChars false ((sb ++ sp) ++ [' ', 'f', 't']) = false := by
        rw [hasWord_append featChars hwordfeat (sb ++ sp) [' ', 'f', 't'] false
          (Or.inr (by rw [List.headD_cons]; decide)), hb1]
        cases hq : wordEnd false (sb ++ sp) <;> decide
      rw [cutAux_append featChars ((sb ++ sp) ++ [' ', 'f', 't']) (stripBrackets rest)
        false hbL hwordfeat hres1]
      have hp1 : wordEnd false ((sb ++ sp) ++ [' ', 'f', 't']) = true := by
        rw [wordEnd_append]
        rfl
      rw [hp1]
      have hres1' := cutAux_head featChars (stripBrackets rest) hres1
      have hres2' : '\n' ∉ cutAux featChars true (stripBrackets rest) :=
        cutAux_nl featChars (stripBrackets rest) true hres2
      have hmass : ((sb ++ sp) ++ [' ', 'f', 't']) ++ cutAux featChars true
            (stripBrackets rest)
          = (sb ++ sp) ++ (' ' :: (ftChars ++ cutAux featChars true
            (stripBrackets rest))) := by
        simp [List.append_assoc, ftChars]
      rw [hmass]
      rw [cutAux_append ftChars (sb ++ sp)
        (' ' :: (ftChars ++ cutAux featChars true (stripBrackets rest))) false hb2
        hwordft (Or.inr (by rw [List.headD_cons]; decide))]
      rw [cutAux_designated ftChars 'f' ['t'] rfl (by decide) hwordft (by decide)
        (cutAux featChars true (stripBrackets rest)) _ hres1' hres2']
      have hsp2 : ∀ c ∈ (sp ++ [' ', ' ']), c = ' ' := by
        intro c hc
        rcases List.mem_append.mp hc with hc | hc
        · exact hsp c hc
        · simpa using hc
      rw [List.append_assoc, jsTrim_collapse_spaces sb (sp ++ [' ', ' ']) hsp2, hrhs]

def exArtistVariant : String := "Beyoncé"

def exTitleVariant : String := "Halo (Live)"

def exArtistBase : String := "beyonce"

def exTitleBase : String := "halo"

def exKey : String := "beyonce|halo"

/-- C6: a variant pair whose lower-cased, NFKD-decomposed and mark-stripped
forms extend the base pair's forms by a decoration (spaces and bracketed
`(...)`/`[...]` fragments, optionally ending in a word-boundary
`feat`/`ft` clause and anything after it) yields the identical song key,
which is `normalize(artist)|normalize(title)`; in particular the
"Beyoncé"/"Halo (Live)" variant keys to `beyonce|halo`. -/
theorem C6_buildSongKey_invariance (a1 t1 a2 t2 : String) (ea et : List Char)
    (hca : CleanBase (stripStage a2.data)) (hct : CleanBase (stripStage t2.data))
    (hda : Deco ea) (hdt : Deco et)
    (hva : stripStage a1.data = stripStage a2.data ++ ea)
    (hvt : stripStage t1.data = stripStage t2.data ++ et) :
    buildSongKey a1 t1 = buildSongKey a2 t2 ∧
    buildSongKey a1 t1 = normalize a1 ++ "|" ++ normalize t1 ∧
    buildSongKey exArtistVariant exTitleVariant = exKey := by
  have key : ∀ (x y : String) (e : List Char), CleanBase (stripStage y.data) → Deco e →
      stripStage x.data = stripStage y.data ++ e → normalize x = normalize y := by
    intro x y e hc hd hv
    rw [normalize_eq, normalize_eq, hv, normTail_deco _ _ hc hd]
  refine ⟨?_, rfl, by decide⟩
  unfold buildSongKey
  rw [key a1 a2 ea hca hda hva, key t1 t2 et hct hdt hvt]

/-- Witness for C6 at the claim's own example: "Beyoncé" / "Halo (Live)"
versus the base "beyonce" / "halo", with decorations `[]` and `" (live)"`. -/
theorem C6_buildSongKey_invariance_witness :
    CleanBase (stripStage exArtistBase.data) ∧
    CleanBase (stripStage exTitleBase.data) ∧
    stripStage exArtistVariant.data = stripStage exArtistBase.data ++ [] ∧
    stripStage exTitleVariant.data
      = stripStage exTitleBase.data ++ (' ' :: '(' :: (['l', 'i', 'v', 'e'] ++ [')'])) ∧
    buildSongKey exArtistVariant exTitleVariant = buildSongKey exArtistBase exTitleBase ∧
    buildSongKey exArtistVariant exTitleVariant = exKey :=
  ⟨by decide, by decide, by decide, by decide,
    (C6_buildSongKey_invariance exArtistVariant exTitleVariant exArtistBase exTitleBase
      [] (' ' :: '(' :: (['l', 'i', 'v', 'e'] ++ [')'])) (by decide) (by decide)
      ⟨[], [], SpacesGroups.nil, FeatTail.nil, rfl⟩
      ⟨' ' :: '(' :: (['l', 'i', 'v', 'e'] ++ [')']), [],
        SpacesGroups.space (SpacesGroups.paren (by decide) SpacesGroups.nil),
        FeatTail.nil, (List.append_nil _).symm⟩
      (by decide) (by decide)).1,
    (C6_buildSongKey_invariance exArtistVariant exTitleVariant exArtistBase exTitleBase
      [] (' ' :: '(' :: (['l', 'i', 'v', 'e'] ++ [')'])) (by decide) (by decide)
      ⟨[], [], SpacesGroups.nil, FeatTail.nil, rfl⟩
      ⟨' ' :: '(' :: (['l', 'i', 'v', 'e'] ++ [')']), [],
        SpacesGroups.space (SpacesGroups.paren (by decide) SpacesGroups.nil),
        FeatTail.nil, (List.append_nil _).symm⟩
      (by decide) (by decide)).2.2⟩

end OdsluchaneSync
